import Mathlib

/-!
A verification development for the reflection-driven configuration-binding
engine (`config/config.go`, `config/flag.go`).

The Go code is shallowly embedded: the caller-supplied configuration object
(an arbitrary nested Go struct, reached through a pointer) becomes the
inductive type `Value`; the process environment becomes a total function
`Env : String → String` (Go's `os.Getenv` returns `""` for unset names);
the cobra flag set becomes a list of registered flag definitions plus a
record `Parsed` of the post-`Execute` lookup functions; the yaml decode and
the file read, which live in external libraries, become oracle parameters
of the `New` pipeline.  Go's five signed-integer widths are collapsed into
one mathematical integer kind (the source registers and assigns all of
them through `int64`); float payloads are carried as an uninterpreted
bit-pattern `GoFloat`, and `strconv.ParseFloat` is an oracle parameter.
Overflow of narrow integer fields on reflective assignment is outside the
modelled behaviour.  Reflection panics that the source can actually reach
(field lookup on a non-struct type at the final path segment, and writes
through shadowed unexported fields) are modelled explicitly as a
`panicked` outcome.
-/

namespace GokitConfig

/-- The process environment, as seen through `os.Getenv`: a total map from
variable names to values, `""` for unset variables. -/
def Env : Type := String → String

/-- Uninterpreted payload of a Go floating-point value (a bit pattern).
No claim reasons about float arithmetic; the code only moves these around. -/
structure GoFloat where
  bits : Nat
deriving DecidableEq, Repr

mutual
/-- A Go value of the shapes the config walker distinguishes: string,
signed integer (widths collapsed), bool, float, struct, pointer, and a
catch-all `vOther` for every kind the `switch` statements do not handle
(slices, maps, unsigned ints, …).  A pointer carries the zero value of its
pointee type (`reflect.New(t.Elem())` produces exactly that) next to its
current pointee, `none` for a nil pointer. -/
inductive Value where
  | vStr (s : String)
  | vInt (n : Int)
  | vBool (b : Bool)
  | vFloat (x : GoFloat)
  | vStruct (fields : List Field)
  | vPtr (elemZero : Value) (obj : Option Value)
  | vOther (tag : Nat)

/-- One struct field: its Go identifier, its `yaml` and `json` tag strings
(`""` when the tag is absent), whether it is exported, and its value. -/
inductive Field where
  | mk (fname yamlTag jsonTag : String) (exported : Bool) (val : Value)
end

def Field.fname : Field → String
  | .mk n _ _ _ _ => n

def Field.yamlTag : Field → String
  | .mk _ y _ _ _ => y

def Field.jsonTag : Field → String
  | .mk _ _ j _ _ => j

def Field.exported : Field → Bool
  | .mk _ _ _ e _ => e

def Field.val : Field → Value
  | .mk _ _ _ _ v => v

def Field.withVal : Field → Value → Field
  | .mk n y j e _, v => .mk n y j e v

/-!
Go string primitives, implemented over the character list of the string so
that every computation reduces inside the kernel.  Go's `strings.ToLower`
and `strings.TrimSpace` handle full Unicode; the model restricts case
folding to ASCII and whitespace to ASCII whitespace, which agrees with Go
on every input exercised here.
-/

/-- `len` / character count (the guards of `resolveEnvVar` compare against
ASCII characters, so Go's byte indexing coincides with character
indexing wherever the guards pass). -/
def strLength (s : String) : Nat := s.data.length

/-- The first `n` characters (Go `s[0:n]` under the guard above). -/
def strTake (s : String) (n : Nat) : String := ⟨s.data.take n⟩

/-- Everything after the first `n` characters (Go `s[n:]`). -/
def strDrop (s : String) (n : Nat) : String := ⟨s.data.drop n⟩

/-- The last `n` characters (Go `s[len(s)-n:]`). -/
def strTakeRight (s : String) (n : Nat) : String :=
  ⟨s.data.drop (s.data.length - n)⟩

/-- Everything but the last `n` characters (Go `s[:len(s)-n]`). -/
def strDropRight (s : String) (n : Nat) : String :=
  ⟨s.data.take (s.data.length - n)⟩

/-- `strings.ToLower`, restricted to ASCII case folding. -/
def strToLower (s : String) : String := ⟨s.data.map Char.toLower⟩

/-- `strings.TrimSpace`, restricted to ASCII whitespace. -/
def strTrim (s : String) : String :=
  ⟨((s.data.dropWhile Char.isWhitespace).reverse.dropWhile
      Char.isWhitespace).reverse⟩

/-- `strings.Split(tag, ",")[0]`: the part before the first comma (for an
empty tag Go yields `[""]`, whose head is likewise `""`). -/
def commaHead (s : String) : String :=
  ⟨s.data.takeWhile (fun c => ¬c = ',')⟩

/-- `strings.Split` on a single-character separator. -/
def splitChar (sep : Char) : List Char → List (List Char)
  | [] => [[]]
  | c :: rest =>
    if c = sep then [] :: splitChar sep rest
    else
      match splitChar sep rest with
      | [] => [[c]]
      | g :: gs => (c :: g) :: gs

/-- `strings.Split(path, ".")`. -/
def splitDot (path : String) : List String :=
  (splitChar '.' path.data).map (fun l => ⟨l⟩)

/-- Locate the first `::` separator: the parts before and after it. -/
def splitN2Chars : List Char → Option (List Char × List Char)
  | [] => none
  | c1 :: rest =>
    match rest with
    | [] => none
    | c2 :: rest2 =>
      if c1 = ':' ∧ c2 = ':' then some ([], rest2)
      else
        match splitN2Chars rest with
        | none => none
        | some (a, b) => some (c1 :: a, b)

/-- `strings.SplitN(pair, "::", 2)`: at most two parts, split at the first
occurrence of `::`. -/
def splitN2 (pair : String) : List String :=
  match splitN2Chars pair.data with
  | none => [pair]
  | some (a, b) => [⟨a⟩, ⟨b⟩]

/-- `resolveEnvVar` from `config/config.go`: resolve a `$VAR` / `${VAR}`
reference against the environment, returning the original string when the
variable is unset or empty, or when the string matches neither form. -/
def resolveEnvVar (env : Env) (val : String) : String :=
  if strLength val = 0 then val
  else if strLength val > 3 && strTake val 2 == "$\x7b" && strTakeRight val 1 == "\x7d" then
    let envVarName := strDropRight (strDrop val 2) 1
    let envValue := env envVarName
    if envValue ≠ "" then envValue else val
  else if strTake val 1 == "$" then
    let envVarName := strDrop val 1
    let envValue := env envVarName
    if envValue ≠ "" then envValue else val
  else val

/-- The inline-substitution rule exactly as the specification words it:
the `${NAME}` form (at least 4 characters, begins with `${`, ends with `}`)
looks up the enclosed name, substituting when the variable is set and
non-empty and otherwise leaving the string untouched including delimiters;
otherwise a string beginning with `$` treats everything after `$` as the
name, with the same lookup/substitution/fallback rule; any other string,
including the empty string, passes through unchanged. -/
def specInlineSubst (env : Env) (s : String) : String :=
  if strLength s ≥ 4 ∧ strTake s 2 = "$\x7b" ∧ strTakeRight s 1 = "\x7d" then
    let name := strDropRight (strDrop s 2) 1
    if env name ≠ "" then env name else s
  else if strTake s 1 = "$" then
    let name := strDrop s 1
    if env name ≠ "" then env name else s
  else s

/-- External-name resolution shared by `registerFlags` and
`applyFlagOverrides`: `name := field.Name`, then if the yaml tag is
non-empty, split it on `,` and take the first part when that part is
non-empty. -/
def extName (fname yamlTag : String) : String :=
  if yamlTag ≠ "" then
    let part0 := commaHead yamlTag
    if part0 ≠ "" then part0 else fname
  else fname

/-- `flagName := name; if prefix != "" { flagName = prefix + "." + name }`. -/
def joinName (pfx name : String) : String :=
  if pfx ≠ "" then pfx ++ "." ++ name else name

/-- One registered pflag definition: its primitive kind and default value.
`registerFlags` registers strings as string flags, every signed integer
width as an `Int64` flag, bools as bool flags and both float widths as a
`Float64` flag. -/
inductive FlagDef where
  | fStr (dflt : String)
  | fInt (dflt : Int)
  | fBool (dflt : Bool)
  | fFloat (dflt : GoFloat)
deriving DecidableEq, Repr

/-- The cobra flag set, as the ordered list of registrations performed. -/
abbrev FlagSet := List (String × FlagDef)

/-- `registerFlags` from `config/config.go`, acting on the field list of a
struct: skip unexported fields; pointer fields are allocated when nil
(`CanSet` holds for every exported field of the addressable config object)
and the callee then dereferences once and walks the pointee only when it
is a struct; struct fields recurse with an extended prefix; the four
primitive kinds register one typed flag with the current value as default;
all other kinds are ignored. -/
def regFields (pfx : String) (fl : List Field) (fs : FlagSet) :
    List Field × FlagSet :=
  match fl with
  | [] => ([], fs)
  | .mk n y j e v :: rest =>
    if e = false then
      let (rest2, fs2) := regFields pfx rest fs
      (.mk n y j e v :: rest2, fs2)
    else
      let flagName := joinName pfx (extName n y)
      match v with
      | .vPtr z .none =>
        -- nil: allocate a fresh zero pointee, then registerFlags on the
        -- pointer walks the pointee when it is a struct
        match z with
        | .vStruct l =>
          let (l2, fs2) := regFields flagName l fs
          let (rest2, fs3) := regFields pfx rest fs2
          (.mk n y j e (.vPtr z (.some (.vStruct l2))) :: rest2, fs3)
        | _ =>
          let (rest2, fs2) := regFields pfx rest fs
          (.mk n y j e (.vPtr z (.some z)) :: rest2, fs2)
      | .vPtr z (.some u) =>
        match u with
        | .vStruct l =>
          let (l2, fs2) := regFields flagName l fs
          let (rest2, fs3) := regFields pfx rest fs2
          (.mk n y j e (.vPtr z (.some (.vStruct l2))) :: rest2, fs3)
        | _ =>
          let (rest2, fs2) := regFields pfx rest fs
          (.mk n y j e (.vPtr z (.some u)) :: rest2, fs2)
      | .vStruct l =>
        let (l2, fs2) := regFields flagName l fs
        let (rest2, fs3) := regFields pfx rest fs2
        (.mk n y j e (.vStruct l2) :: rest2, fs3)
      | .vStr s0 =>
        let (rest2, fs2) := regFields pfx rest (fs ++ [(flagName, .fStr s0)])
        (.mk n y j e (.vStr s0) :: rest2, fs2)
      | .vInt k =>
        let (rest2, fs2) := regFields pfx rest (fs ++ [(flagName, .fInt k)])
        (.mk n y j e (.vInt k) :: rest2, fs2)
      | .vBool b =>
        let (rest2, fs2) := regFields pfx rest (fs ++ [(flagName, .fBool b)])
        (.mk n y j e (.vBool b) :: rest2, fs2)
      | .vFloat x =>
        let (rest2, fs2) := regFields pfx rest (fs ++ [(flagName, .fFloat x)])
        (.mk n y j e (.vFloat x) :: rest2, fs2)
      | .vOther t =>
        let (rest2, fs2) := regFields pfx rest fs
        (.mk n y j e (.vOther t) :: rest2, fs2)

/-- `registerFlags` on an arbitrary passed-in value: dereference once if a
pointer, then walk the fields when the result is a struct, else do
nothing. -/
def regValue (pfx : String) (v : Value) (fs : FlagSet) : Value × FlagSet :=
  match v with
  | .vStruct fl =>
    let (fl2, fs2) := regFields pfx fl fs
    (.vStruct fl2, fs2)
  | .vPtr z (.some (.vStruct fl)) =>
    let (fl2, fs2) := regFields pfx fl fs
    (.vPtr z (.some (.vStruct fl2)), fs2)
  | v => (v, fs)

/-- The flag lookup state after `cmd.Execute()`: which flag names were
explicitly set on the command line, the typed `Get*` lookups, and the
values of the two fixed control flags (`--from-env` with its `Changed`
bit, and `--config`). -/
structure Parsed where
  changed : String → Bool
  getStr : String → String
  getInt : String → Int
  getBool : String → Bool
  getFloat : String → GoFloat
  fromEnvChanged : Bool
  fromEnv : List String
  configFile : String

/-- The walk part of `applyFlagOverrides` (everything after the from-env
preamble), acting on a struct's field list: skip unexported fields;
non-nil pointers recurse (the callee dereferences once and walks only
struct pointees), nil pointers are left alone; structs recurse with an
extended prefix; a primitive leaf whose flag was explicitly changed is
overwritten with the flag's parsed value, strings additionally passing
through `resolveEnvVar` first. -/
def walkFields (P : Parsed) (env : Env) (pfx : String) (fl : List Field) :
    List Field :=
  match fl with
  | [] => []
  | .mk n y j e v :: rest =>
    if e = false then .mk n y j e v :: walkFields P env pfx rest
    else
      let flagName := joinName pfx (extName n y)
      let v2 : Value :=
        match v with
        | .vPtr z .none => .vPtr z .none
        | .vPtr z (.some u) =>
          match u with
          | .vStruct l => .vPtr z (.some (.vStruct (walkFields P env flagName l)))
          | _ => .vPtr z (.some u)
        | .vStruct l => .vStruct (walkFields P env flagName l)
        | .vStr s0 =>
          if P.changed flagName then .vStr (resolveEnvVar env (P.getStr flagName))
          else .vStr s0
        | .vInt k =>
          if P.changed flagName then .vInt (P.getInt flagName) else .vInt k
        | .vBool b =>
          if P.changed flagName then .vBool (P.getBool flagName) else .vBool b
        | .vFloat x =>
          if P.changed flagName then .vFloat (P.getFloat flagName) else .vFloat x
        | .vOther t => .vOther t
      .mk n y j e v2 :: walkFields P env pfx rest

/-- The walk part of `applyFlagOverrides` on an arbitrary passed-in value:
dereference once if a pointer, walk the fields when the result is a
struct, else do nothing. -/
def walkValue (P : Parsed) (env : Env) (pfx : String) (v : Value) : Value :=
  match v with
  | .vStruct fl => .vStruct (walkFields P env pfx fl)
  | .vPtr z (.some (.vStruct fl)) =>
    .vPtr z (.some (.vStruct (walkFields P env pfx fl)))
  | v => v

/-- `findFieldByNameOrTag` body, with the lowercased probe precomputed:
skip unexported fields, then match the probe case-insensitively against
the field name, the first comma-part of the yaml tag (when the tag is
non-empty), or the first comma-part of the json tag (when non-empty);
return the Go field name of the first field that matches.  The source
returns `""` for "not found"; this model returns `none`. -/
def findFieldAux (nameLower : String) (fl : List Field) : Option String :=
  match fl with
  | [] => none
  | f :: rest =>
    if f.exported = false then findFieldAux nameLower rest
    else if strToLower f.fname = nameLower then some f.fname
    else if f.yamlTag ≠ "" ∧ strToLower (commaHead f.yamlTag) = nameLower then
      some f.fname
    else if f.jsonTag ≠ "" ∧ strToLower (commaHead f.jsonTag) = nameLower then
      some f.fname
    else findFieldAux nameLower rest

/-- `findFieldByNameOrTag` from `config/flag.go`. -/
def findFieldByNameOrTag (fl : List Field) (name : String) : Option String :=
  findFieldAux (strToLower name) fl

/-- `reflect.Value.FieldByName`: the field with the given Go identifier
(struct field names are unique in Go; the model takes the first), together
with its index. -/
def fieldByName (fl : List Field) (nm : String) : Option (Nat × Field) :=
  match fl with
  | [] => none
  | f :: rest =>
    if f.fname = nm then some (0, f)
    else (fieldByName rest nm).map (fun p => (p.1 + 1, p.2))

/-- `strconv.ParseInt(value, 10, 64)`: optional single sign, then a
non-empty run of ASCII decimal digits, range-checked against `int64`
(out-of-range input is an error, which the caller treats as a failed
conversion). -/
def parseInt64 (s : String) : Option Int :=
  match s.data with
  | [] => none
  | c :: rest =>
    let (neg, digits) :=
      if c = '-' then (true, rest)
      else if c = '+' then (false, rest)
      else (false, c :: rest)
    if digits.isEmpty then none
    else if digits.all (fun d => d.isDigit) then
      let m : Nat := digits.foldl (fun acc d => acc * 10 + (d.toNat - 48)) 0
      let v : Int := if neg then -(m : Int) else (m : Int)
      if -(2 ^ 63) ≤ v ∧ v ≤ 2 ^ 63 - 1 then some v else none
    else none

/-- `strconv.ParseBool`: the twelve accepted literals. -/
def parseBool (s : String) : Option Bool :=
  if s = "1" ∨ s = "t" ∨ s = "T" ∨ s = "true" ∨ s = "TRUE" ∨ s = "True" then some true
  else if s = "0" ∨ s = "f" ∨ s = "F" ∨ s = "false" ∨ s = "FALSE" ∨ s = "False" then
    some false
  else none

/-- One diagnostic written to standard error, by emitting site. -/
inductive Diag where
  | invalidFromEnvFormat (pair : String)
  | envVarNotSet (name : String)
  | emptyPath
  | notAStruct (seg path : String)
  | fieldNotFound (seg path : String)
  | invalidField (seg path : String)
  | notStructOrPtr (seg path : String)
  | cannotSetField (seg path : String)
  | cannotConvert (kind value path : String)
  | unsupportedType (path : String)
deriving DecidableEq, Repr

/-- Outcome of a mutating pass: the updated object plus the diagnostics
written, or a reflection panic (which aborts the whole process). -/
inductive SetRes where
  | ok (v : Value) (ds : List Diag)
  | panicked (ds : List Diag) (msg : String)

/-- `v := reflect.ValueOf(current); if v.Kind() == reflect.Ptr { v = v.Elem() }`.
Dereferencing a nil pointer yields reflect's invalid zero `Value`, which no
caller treats as a struct; the model returns the pointer itself, which is
likewise not a struct. -/
def derefOnce : Value → Value
  | .vPtr _ (.some u) => u
  | v => v

/-- Reconstruct `current` after mutating field `i` of its (dereferenced)
struct: a write through a pointer updates the pointee, a write into a
struct reached by `Addr` updates the struct itself. -/
def writeBack (current : Value) (fl : List Field) (i : Nat) (f : Field) : Value :=
  match current with
  | .vPtr z (.some _) => .vPtr z (.some (.vStruct (fl.set i f)))
  | _ => .vStruct (fl.set i f)

/-- The body of `setValueByPath` from `config/flag.go`, recursing over the
remaining path segments with `current` the value navigated to so far (the
config pointer at the top, then a pointer field or an addressed struct
field).  The navigation loop covers all but the last segment: dereference
once; require a struct; locate the segment's field (case-insensitively by
name or tag); nil pointer fields are allocated before descending; a
non-struct, non-pointer field mid-path aborts this one assignment with a
diagnostic.  The final segment is then resolved on the navigated-to parent
and assigned with a string conversion matched to the leaf's kind.  Two
genuine reflection panics are modelled: the final lookup calls
`t.NumField()` without a struct check, and a write through a shadowed
unexported field trips reflect's read-only flag. -/
def svp (pf : String → Option GoFloat) (current : Value) (segs : List String)
    (path value : String) : SetRes :=
  match segs with
  | [] => .ok current [.emptyPath]
  | [last] =>
    match derefOnce current with
    | .vStruct fl =>
      match findFieldByNameOrTag fl last with
      | none => .ok current [.fieldNotFound last path]
      | some fname =>
        match fieldByName fl fname with
        | none => .ok current [.invalidField last path]
        | some (i, f) =>
          if f.exported = false then .ok current [.cannotSetField last path]
          else
            match f.val with
            | .vStr _ => .ok (writeBack current fl i (f.withVal (.vStr value))) []
            | .vInt _ =>
              match parseInt64 value with
              | none => .ok current [.cannotConvert "int" value path]
              | some k => .ok (writeBack current fl i (f.withVal (.vInt k))) []
            | .vBool _ =>
              match parseBool value with
              | none => .ok current [.cannotConvert "bool" value path]
              | some b => .ok (writeBack current fl i (f.withVal (.vBool b))) []
            | .vFloat _ =>
              match pf value with
              | none => .ok current [.cannotConvert "float" value path]
              | some x => .ok (writeBack current fl i (f.withVal (.vFloat x))) []
            | _ => .ok current [.unsupportedType path]
    | _ => .panicked [] "reflect: NumField of non-struct type"
  | seg :: rest =>
    match derefOnce current with
    | .vStruct fl =>
      match findFieldByNameOrTag fl seg with
      | none => .ok current [.fieldNotFound seg path]
      | some fname =>
        match fieldByName fl fname with
        | none => .ok current [.invalidField seg path]
        | some (i, f) =>
          if f.exported = false then
            .panicked [] "reflect: value obtained using unexported field"
          else
            match f.val with
            | .vPtr z obj =>
              match svp pf (.vPtr z (.some (obj.getD z))) rest path value with
              | .ok ptr2 ds => .ok (writeBack current fl i (f.withVal ptr2)) ds
              | .panicked ds m => .panicked ds m
            | .vStruct _ =>
              match svp pf f.val rest path value with
              | .ok sub ds => .ok (writeBack current fl i (f.withVal sub)) ds
              | .panicked ds m => .panicked ds m
            | _ => .ok current [.notStructOrPtr seg path]
    | _ => .ok current [.notAStruct seg path]

/-- `setValueByPath` entry point: split the path on `.` and run the
navigation.  (`strings.Split` never returns an empty slice, so the
source's empty-path guard is unreachable; the model keeps it inside
`svp`.) -/
def setValueByPath (pf : String → Option GoFloat) (config : Value)
    (path value : String) : SetRes :=
  svp pf config (splitDot path) path value

/-- One iteration of the from-env preamble of `applyFlagOverrides`: split
the entry once on `::`; a malformed entry or an unset/empty environment
variable is skipped with a warning; otherwise the value of the named
variable is assigned through `setValueByPath`.  A panic short-circuits
the remaining entries. -/
def fromEnvStep (env : Env) (pf : String → Option GoFloat) (acc : SetRes)
    (pair : String) : SetRes :=
  match acc with
  | .panicked ds m => .panicked ds m
  | .ok v ds =>
    let parts := splitN2 pair
    if parts.length ≠ 2 then .ok v (ds ++ [.invalidFromEnvFormat pair])
    else
      let configPath := strTrim (parts.headD "")
      let envVarName := strTrim (parts.getD 1 "")
      let envValue := env envVarName
      if envValue = "" then .ok v (ds ++ [.envVarNotSet envVarName])
      else
        match setValueByPath pf v configPath envValue with
        | .ok v2 ds2 => .ok v2 (ds ++ ds2)
        | .panicked ds2 m => .panicked (ds ++ ds2) m

/-- The from-env preamble: process the `--from-env` entries in argument
order. -/
def runFromEnv (env : Env) (pf : String → Option GoFloat) (v : Value)
    (pairs : List String) : SetRes :=
  pairs.foldl (fromEnvStep env pf) (.ok v [])

/-- `applyFlagOverrides(cmd, configObject, "")` as called from `New`: at
the root (empty prefix) the from-env preamble runs first when the
`--from-env` flag was explicitly supplied, then the flag-override walk
re-walks the whole shape.  Recursive calls pass the field's non-empty
flag name as prefix, so the preamble runs exactly once. -/
def applyFlagOverridesRoot (P : Parsed) (env : Env)
    (pf : String → Option GoFloat) (config : Value) : SetRes :=
  let pre : SetRes :=
    if P.fromEnvChanged then runFromEnv env pf config P.fromEnv
    else .ok config []
  match pre with
  | .panicked ds m => .panicked ds m
  | .ok v ds => .ok (walkValue P env "" v) ds

/-- Outcome of `New`: the populated object plus diagnostics, a returned
error, or a reflection panic. -/
inductive NewRes where
  | ok (v : Value) (ds : List Diag)
  | err (msg : String)
  | panicked (ds : List Diag) (msg : String)

/-- `New` from `config/config.go`: register flags over the caller's object
(allocating nil pointer sub-structs), parse the invocation arguments
(failure is returned to the caller), read and decode the config file when
`--config` was given (each failure wrapped with phase context and
returned), then apply the override resolver.  Parsing, the file read and
the yaml decode live outside this repository and are oracle parameters. -/
def NewModel (config : Value) (parse : FlagSet → Except String Parsed)
    (readFile : String → Except String String)
    (unmarshal : String → Value → Except String Value)
    (env : Env) (pf : String → Option GoFloat) : NewRes :=
  let (cfg1, fs) := regValue "" config []
  match parse fs with
  | .error e => .err e
  | .ok P =>
    if P.configFile ≠ "" then
      match readFile P.configFile with
      | .error e => .err ("failed to read config file: " ++ e)
      | .ok data =>
        match unmarshal data cfg1 with
        | .error e => .err ("failed to unmarshal config file: " ++ e)
        | .ok cfg2 =>
          match applyFlagOverridesRoot P env pf cfg2 with
          | .ok v ds => .ok v ds
          | .panicked ds m => .panicked ds m
    else
      match applyFlagOverridesRoot P env pf cfg1 with
      | .ok v ds => .ok v ds
      | .panicked ds m => .panicked ds m

/-- A field's segment name as the claim words it: the first comma-separated
part of the declared yaml tag when that part is non-empty, otherwise the
structural field name. -/
def specSegName (f : Field) : String :=
  let p := commaHead f.yamlTag
  if p ≠ "" then p else f.fname

/-- The flag surface as the specification words it: one entry per exported
leaf field of a supported primitive kind, named by the dot-joined path of
segment names, typed as a string / 64-bit integer / boolean / 64-bit float
flag with the field's current value as default; fields of any other kind
(and everything beneath a non-struct pointee) contribute nothing; nested
structs and optional structs (through their pointee, or the zero pointee
for a nil pointer) are traversed. -/
def specFlags (pfx : String) (fl : List Field) : FlagSet :=
  match fl with
  | [] => []
  | .mk n y j e v :: rest =>
    if e = false then specFlags pfx rest
    else
      let nm := joinName pfx (specSegName (.mk n y j e v))
      (match v with
        | .vStr s => [(nm, FlagDef.fStr s)]
        | .vInt k => [(nm, FlagDef.fInt k)]
        | .vBool b => [(nm, FlagDef.fBool b)]
        | .vFloat x => [(nm, FlagDef.fFloat x)]
        | .vStruct l => specFlags nm l
        | .vPtr z .none =>
          match z with
          | .vStruct l => specFlags nm l
          | _ => []
        | .vPtr _ (.some u) =>
          match u with
          | .vStruct l => specFlags nm l
          | _ => []
        | .vOther _ => []) ++ specFlags pfx rest

/-- A segment matches a field, as the claim words it: the field is
exported, and the segment equals — case-insensitively — the structural
field name, the declared primary external (yaml) name, or the declared
fallback external (json) name. -/
def specFieldMatches (seg : String) (f : Field) : Bool :=
  f.exported &&
    (strToLower f.fname == strToLower seg ||
     (!(f.yamlTag == "") && strToLower (commaHead f.yamlTag) == strToLower seg) ||
     (!(f.jsonTag == "") && strToLower (commaHead f.jsonTag) == strToLower seg))

/-- Segment resolution as the claim words it: the first field of the
struct that the segment matches, or no field at all. -/
def specFindField (fl : List Field) (seg : String) : Option String :=
  (fl.find? (specFieldMatches seg)).map Field.fname

/-- Address a leaf inside the object by field indices; pointers are
dereferenced implicitly (a nil pointer blocks the address). -/
def getVal (v : Value) : List Nat → Option Value
  | [] => some v
  | i :: rest =>
    match derefOnce v with
    | .vStruct fl =>
      match fl[i]? with
      | some f => getVal f.val rest
      | none => none
    | _ => none

/-- The flag name that both walkers compute for the field at an index
path: the dot-join of external names along the path, defined only when
every step crosses an exported field of a struct. -/
def flagNameAt (pfx : String) (v : Value) : List Nat → Option String
  | [] => none
  | i :: rest =>
    match derefOnce v with
    | .vStruct fl =>
      match fl[i]? with
      | some f =>
        if f.exported = false then none
        else
          let nm := joinName pfx (extName f.fname f.yamlTag)
          match rest with
          | [] => some nm
          | _ :: _ => flagNameAt nm f.val rest
      | none => none
    | _ => none

/-- The value the flag-override walk stores into a primitive leaf whose
flag was explicitly changed; it depends only on the leaf's kind, never on
the payload being overwritten. -/
def flagWrite (P : Parsed) (env : Env) (nm : String) : Value → Value
  | .vStr _ => .vStr (resolveEnvVar env (P.getStr nm))
  | .vInt _ => .vInt (P.getInt nm)
  | .vBool _ => .vBool (P.getBool nm)
  | .vFloat _ => .vFloat (P.getFloat nm)
  | v => v

/-- The four primitive leaf kinds. -/
def isPrim : Value → Bool
  | .vStr _ => true
  | .vInt _ => true
  | .vBool _ => true
  | .vFloat _ => true
  | _ => false

/-- The action of the flag-override walk on a single field. -/
def walkFieldOne (P : Parsed) (env : Env) (pfx : String) : Field → Field
  | .mk n y j e v =>
    if e = false then .mk n y j e v
    else
      let flagName := joinName pfx (extName n y)
      let v2 : Value :=
        match v with
        | .vPtr z .none => .vPtr z .none
        | .vPtr z (.some u) =>
          match u with
          | .vStruct l => .vPtr z (.some (.vStruct (walkFields P env flagName l)))
          | _ => .vPtr z (.some u)
        | .vStruct l => .vStruct (walkFields P env flagName l)
        | .vStr s0 =>
          if P.changed flagName then .vStr (resolveEnvVar env (P.getStr flagName))
          else .vStr s0
        | .vInt k =>
          if P.changed flagName then .vInt (P.getInt flagName) else .vInt k
        | .vBool b =>
          if P.changed flagName then .vBool (P.getBool flagName) else .vBool b
        | .vFloat x =>
          if P.changed flagName then .vFloat (P.getFloat flagName) else .vFloat x
        | .vOther t => .vOther t
      .mk n y j e v2

/-- The index path that `setValueByPath`'s navigation resolves a segment
list to: defined exactly when navigation reaches the final field, lands on
an exported field at every step, and never leaves struct territory. -/
def svpLoc (current : Value) : List String → Option (List Nat)
  | [] => none
  | [last] =>
    match derefOnce current with
    | .vStruct fl =>
      match findFieldByNameOrTag fl last with
      | none => none
      | some fname =>
        match fieldByName fl fname with
        | none => none
        | some (i, f) => if f.exported = false then none else some [i]
    | _ => none
  | seg :: rest =>
    match derefOnce current with
    | .vStruct fl =>
      match findFieldByNameOrTag fl seg with
      | none => none
      | some fname =>
        match fieldByName fl fname with
        | none => none
        | some (i, f) =>
          if f.exported = false then none
          else
            match f.val with
            | .vPtr z obj =>
              (svpLoc (.vPtr z (.some (obj.getD z))) rest).map (fun p => i :: p)
            | .vStruct _ => (svpLoc f.val rest).map (fun p => i :: p)
            | _ => none
    | _ => none

/-- The string-to-leaf conversion of `setValueByPath`'s final switch: the
stored value depends only on the old leaf's kind, never on its payload. -/
def convSet (pf : String → Option GoFloat) (value : String) : Value → Option Value
  | .vStr _ => some (.vStr value)
  | .vInt _ => (parseInt64 value).map Value.vInt
  | .vBool _ => (parseBool value).map Value.vBool
  | .vFloat _ => (pf value).map Value.vFloat
  | _ => none

/-- Concrete one-field shape used by witnesses: `Host string` with yaml
tag `host`, default empty. -/
def cfgC1 : Value := .vStruct [Field.mk "Host" "host" "" true (.vStr "")]

/-- The same shape as it would look after the file decode wrote
`host: filehost`. -/
def fileC1 : Value := .vStruct [Field.mk "Host" "host" "" true (.vStr "filehost")]

/-- Witness environment: `MH=envhost`, `H=flaghost`, all else unset. -/
def envC1 : Env := fun n =>
  if n = "MH" then "envhost" else if n = "H" then "flaghost" else ""

/-- Witness parse result: `--host $H --from-env host::MH --config c.yaml`. -/
def parsedC1 : Parsed :=
  ⟨fun n => n == "host", fun n => if n = "host" then "$H" else "",
    fun _ => 0, fun _ => false, fun _ => ⟨0⟩, true, ["host::MH"], "c.yaml"⟩

/-- Environment for the C3 counterexample: `V=$X`, `X=hello`. -/
def envC3 : Env := fun n =>
  if n = "V" then "$X" else if n = "X" then "hello" else ""

/-- A `--from-env` entry the preamble skips: malformed (no `::`), or its
named environment variable (the trimmed part after `::`) unset/empty. -/
def badEntry (env : Env) (pair : String) : Prop :=
  (splitN2 pair).length ≠ 2 ∨ env (strTrim ((splitN2 pair).getD 1 "")) = ""

instance badEntryDecidable (env : Env) (pair : String) :
    Decidable (badEntry env pair) := by
  unfold badEntry
  exact inferInstance

/-- Witness parse result for the skipped-entry behaviour: no file, two bad
`--from-env` entries (the spec's own examples). -/
def parsedC6 : Parsed :=
  ⟨fun _ => false, fun _ => "", fun _ => 0, fun _ => false, fun _ => ⟨0⟩,
    true, ["onlyonepart", "database.port::DB_PORT"], ""⟩

/-- The empty environment: every variable unset. -/
def envEmpty : Env := fun _ => ""

/-- Shape for the C5 counterexample: an exported pointer-to-int field. -/
def cfgC5 : Value := .vStruct [Field.mk "A" "" "" true (.vPtr (.vInt 0) none)]

/-- Parse result for the C5 counterexample: no file, one mapping whose
path has two segments but whose first segment names the `*int` field. -/
def parsedC5 : Parsed :=
  ⟨fun _ => false, fun _ => "", fun _ => 0, fun _ => false, fun _ => ⟨0⟩,
    true, ["a.x::V"], ""⟩

/-- Environment for the C5 counterexample: `V=1`. -/
def envC5 : Env := fun n => if n = "V" then "1" else ""

/-- No nil pointer remains anywhere the shape walk reaches: exported
fields of structs, descending through struct fields and through pointees
of pointer fields when those pointees are structs. -/
def noNilFields : List Field → Bool
  | [] => true
  | .mk _ _ _ e v :: rest =>
    (if e = false then true
     else
       match v with
       | .vPtr _ .none => false
       | .vPtr _ (.some (.vStruct l)) => noNilFields l
       | .vPtr _ (.some _) => true
       | .vStruct l => noNilFields l
       | _ => true) && noNilFields rest

/-- Zero pointee used in the C10 persistence example. -/
def zB : Value := .vStruct [Field.mk "B" "" "" true (.vInt 0)]

/-- Witness parse result: nothing set at all. -/
def parsedC10 : Parsed :=
  ⟨fun _ => false, fun _ => "", fun _ => 0, fun _ => false, fun _ => ⟨0⟩,
    false, [], ""⟩

/-- Address the field (rather than the leaf value) at an index path. -/
def getField (v : Value) : List Nat → Option Field
  | [] => none
  | i :: rest =>
    match derefOnce v with
    | .vStruct fl =>
      match fl[i]? with
      | some f =>
        match rest with
        | [] => some f
        | _ :: _ => getField f.val rest
      | none => none
    | _ => none

/-- The value transform registration applies to one exported field. -/
def regFieldVal (flagName : String) : Value → Value
  | .vPtr z .none =>
    match z with
    | .vStruct l => .vPtr z (.some (.vStruct (regFields flagName l []).1))
    | _ => .vPtr z (.some z)
  | .vPtr z (.some u) =>
    match u with
    | .vStruct l => .vPtr z (.some (.vStruct (regFields flagName l []).1))
    | _ => .vPtr z (.some u)
  | .vStruct l => .vStruct (regFields flagName l []).1
  | v => v

/-- The field transform registration applies to one field. -/
def regFieldOne (pfx : String) (f : Field) : Field :=
  if f.exported = false then f
  else f.withVal (regFieldVal (joinName pfx (extName f.fname f.yamlTag)) f.val)

/-- Witness shape with an unexported field ahead of an exported one. -/
def cfgC9 : Value :=
  .vStruct [Field.mk "secret" "" "" false (.vStr "s"),
            Field.mk "Host" "host" "" true (.vStr "")]

/-- Zero pointee of the optional field in the C8 example shape. -/
def zC8 : Value := .vStruct [Field.mk "B" "" "" true (.vInt 0)]

/-- A non-nil pointee, distinct from the zero value, as the file decode
would leave it. -/
def uC8 : Value := .vStruct [Field.mk "B" "" "" true (.vInt 7)]

/-- C8 example shape: one exported optional struct field that is already
allocated. -/
def flC8 : List Field := [Field.mk "A" "a" "" true (.vPtr zC8 (.some uC8))]

/-- The C8 example configuration object. -/
def cfgC8 : Value := .vStruct flC8

/-- Witness parse result for C8: nothing set at all. -/
def parsedC8 : Parsed :=
  ⟨fun _ => false, fun _ => "", fun _ => 0, fun _ => false, fun _ => ⟨0⟩,
    false, [], ""⟩

@[simp] theorem Field.fname_mk (n y j : String) (e : Bool) (v : Value) :
    (Field.mk n y j e v).fname = n := rfl

@[simp] theorem Field.yamlTag_mk (n y j : String) (e : Bool) (v : Value) :
    (Field.mk n y j e v).yamlTag = y := rfl

@[simp] theorem Field.jsonTag_mk (n y j : String) (e : Bool) (v : Value) :
    (Field.mk n y j e v).jsonTag = j := rfl

@[simp] theorem Field.exported_mk (n y j : String) (e : Bool) (v : Value) :
    (Field.mk n y j e v).exported = e := rfl

@[simp] theorem Field.val_mk (n y j : String) (e : Bool) (v : Value) :
    (Field.mk n y j e v).val = v := rfl

@[simp] theorem Field.withVal_mk (n y j : String) (e : Bool) (v w : Value) :
    (Field.mk n y j e v).withVal w = .mk n y j e w := rfl

theorem length_zero_eq_empty (s : String) (h : strLength s = 0) : s = "" := by
  cases s with
  | mk data =>
    cases data with
    | nil => rfl
    | cons c cs => simp [strLength] at h

theorem spec_empty (env : Env) : specInlineSubst env "" = "" := by
  unfold specInlineSubst
  rw [if_neg (by decide), if_neg (by decide)]

/-- **C2**: for every environment and every input string, the inline
substitution function `resolveEnvVar` behaves exactly as the specified
rule: the `${NAME}` form (at least 4 characters, `${` prefix, `}` suffix)
looks up the enclosed name and substitutes when set and non-empty, else
returns the original string with delimiters; otherwise a `$` prefix makes
everything after `$` the name with the same rule; anything else, including
the empty string, passes through unchanged. -/
theorem resolveEnvVar_matches_spec (env : Env) (s : String) :
    resolveEnvVar env s = specInlineSubst env s := by
  unfold resolveEnvVar specInlineSubst
  by_cases h0 : strLength s = 0
  · have hs : s = "" := length_zero_eq_empty s h0
    subst hs
    rw [if_pos (by decide), if_neg (by decide), if_neg (by decide)]
  · rw [if_neg h0]
    simp only [Bool.and_eq_true, decide_eq_true_eq, beq_iff_eq, gt_iff_lt]
    have hcond : ((3 < strLength s ∧ strTake s 2 = "$\x7b") ∧ strTakeRight s 1 = "\x7d") =
        (strLength s ≥ 4 ∧ strTake s 2 = "$\x7b" ∧ strTakeRight s 1 = "\x7d") :=
      propext ⟨fun h => ⟨by omega, h.1.2, h.2⟩, fun h => ⟨⟨by omega, h.2.1⟩, h.2.2⟩⟩
    simp only [hcond]

theorem specSegName_eq_extName (f : Field) :
    specSegName f = extName f.fname f.yamlTag := by
  unfold specSegName extName
  by_cases hy : f.yamlTag = ""
  · simp [hy, commaHead]
  · simp [hy]

/-- **C4**: the flags registered by a run of `registerFlags` over a field
list are exactly the specified per-leaf enumeration, appended to the
incoming flag set: one flag per exported leaf of a supported primitive
kind, named by the dot-joined path of segment names (first comma-part of
the yaml tag when non-empty, else the field name), typed as
string / 64-bit int / bool / 64-bit float with the current value as
default, and no flag for fields of any other kind. -/
theorem registerFlags_matches_spec (pfx : String) (fl : List Field)
    (fs : FlagSet) : (regFields pfx fl fs).2 = fs ++ specFlags pfx fl := by
  induction pfx, fl, fs using regFields.induct with
  | case1 pfx fs => simp [regFields, specFlags]
  | _ =>
    simp_all [regFields, specFlags, specSegName_eq_extName]

/-- **C7**: dot-path segment resolution matches fields case-insensitively
against the structural name, the primary (yaml) external name, or the
fallback (json) external name, never matching an unexported field; and
when no field matches, the navigation step and the final assignment step
both skip the assignment, leaving the object untouched and emitting a
field-not-found diagnostic. -/
theorem findFieldByNameOrTag_matches_spec :
    (∀ (fl : List Field) (seg : String),
      findFieldByNameOrTag fl seg = specFindField fl seg) ∧
    (∀ (pf : String → Option GoFloat) (current : Value) (fl : List Field)
      (seg path value : String) (rest : List String),
      derefOnce current = .vStruct fl →
      findFieldByNameOrTag fl seg = none →
      svp pf current (seg :: rest) path value =
        .ok current [.fieldNotFound seg path]) := by
  constructor
  · intro fl seg
    unfold findFieldByNameOrTag specFindField
    induction fl with
    | nil => simp [findFieldAux]
    | cons f rest ih =>
      simp only [findFieldAux, List.find?]
      by_cases he : f.exported = false
      · have hm : specFieldMatches seg f = false := by
          simp [specFieldMatches, he]
        simp [he, hm, ih]
      · have he2 : f.exported = true := by
          revert he; cases f.exported <;> simp
        by_cases h1 : strToLower f.fname = strToLower seg
        · have hm : specFieldMatches seg f = true := by
            simp [specFieldMatches, he2, h1]
          simp [he, h1, hm]
        · by_cases h2 : f.yamlTag ≠ "" ∧ strToLower (commaHead f.yamlTag) = strToLower seg
          · have hm : specFieldMatches seg f = true := by
              simp [specFieldMatches, he2, h2.1, h2.2]
            simp [he, h1, h2, hm]
          · by_cases h3 : f.jsonTag ≠ "" ∧ strToLower (commaHead f.jsonTag) = strToLower seg
            · have hm : specFieldMatches seg f = true := by
                simp [specFieldMatches, he2, h3.1, h3.2]
              simp [he, h1, h2, h3, hm]
            · have hm : specFieldMatches seg f = false := by
                simp only [specFieldMatches, he2, Bool.true_and]
                simp only [Bool.or_eq_false_iff, Bool.and_eq_false_iff]
                refine ⟨⟨by simpa using h1, ?_⟩, ?_⟩
                · by_cases hy : f.yamlTag = ""
                  · exact Or.inl (by simp [hy])
                  · exact Or.inr (by simpa using fun hh => h2 ⟨hy, hh⟩)
                · by_cases hj : f.jsonTag = ""
                  · exact Or.inl (by simp [hj])
                  · exact Or.inr (by simpa using fun hh => h3 ⟨hj, hh⟩)
              simp [he, h1, h2, h3, hm, ih]
  · intro pf current fl seg path value rest hderef hfind
    cases rest with
    | nil => simp only [svp]; rw [hderef]; simp [hfind]
    | cons r rs => simp only [svp]; rw [hderef]; simp [hfind]

theorem findFieldByNameOrTag_matches_spec_witness :
    derefOnce (.vStruct [Field.mk "A" "" "" true (.vStr "x")]) =
      Value.vStruct [Field.mk "A" "" "" true (.vStr "x")] ∧
    findFieldByNameOrTag [Field.mk "A" "" "" true (.vStr "x")] "zzz" = none ∧
    svp (fun _ => none) (.vStruct [Field.mk "A" "" "" true (.vStr "x")])
        ["zzz"] "zzz" "v" =
      .ok (.vStruct [Field.mk "A" "" "" true (.vStr "x")])
        [.fieldNotFound "zzz" "zzz"] :=
  ⟨rfl, rfl,
    findFieldByNameOrTag_matches_spec.2 (fun _ => none)
      (.vStruct [Field.mk "A" "" "" true (.vStr "x")])
      [Field.mk "A" "" "" true (.vStr "x")] "zzz" "zzz" "v" [] rfl rfl⟩

theorem walkFields_eq_map (P : Parsed) (env : Env) (pfx : String)
    (fl : List Field) :
    walkFields P env pfx fl = fl.map (walkFieldOne P env pfx) := by
  induction fl with
  | nil => simp [walkFields]
  | cons f rest ih =>
    cases f with
    | mk n y j e v =>
      by_cases he : e = false <;>
        simp [walkFields, walkFieldOne, List.map, ih, he]

theorem walkValue_deref (P : Parsed) (env : Env) (pfx : String) (v : Value)
    (fl : List Field) (h : derefOnce v = .vStruct fl) :
    derefOnce (walkValue P env pfx v) = .vStruct (walkFields P env pfx fl) := by
  cases v with
  | vStruct fl2 =>
    cases h
    rfl
  | vPtr z obj =>
    cases obj with
    | none => simp [derefOnce] at h
    | some u =>
      have hu : u = .vStruct fl := h
      subst hu
      rfl
  | vStr s => simp [derefOnce] at h
  | vInt k => simp [derefOnce] at h
  | vBool b => simp [derefOnce] at h
  | vFloat x => simp [derefOnce] at h
  | vOther t => simp [derefOnce] at h

theorem fieldByName_spec (fl : List Field) (nm : String) :
    ∀ i f, fieldByName fl nm = some (i, f) → fl[i]? = some f ∧ f.fname = nm := by
  induction fl with
  | nil => intro i f h; simp [fieldByName] at h
  | cons g rest ih =>
    intro i f h
    unfold fieldByName at h
    by_cases hg : g.fname = nm
    · rw [if_pos hg] at h
      obtain ⟨hi, hf⟩ := Prod.mk.injEq .. ▸ Option.some.inj h
      subst hi; subst hf
      exact ⟨by simp, hg⟩
    · rw [if_neg hg] at h
      cases hrec : fieldByName rest nm with
      | none => rw [hrec] at h; simp at h
      | some p =>
        obtain ⟨i2, f2⟩ := p
        rw [hrec] at h
        simp only [Option.map] at h
        obtain ⟨hi, hf⟩ := Prod.mk.injEq .. ▸ Option.some.inj h
        have hr := ih i2 f2 hrec
        subst hf
        constructor
        · rw [← hi]
          simpa using hr.1
        · exact hr.2

theorem writeBack_getVal (current : Value) (fl : List Field) (i : Nat)
    (f2 : Field) (h : derefOnce current = .vStruct fl) (hi : i < fl.length)
    (π : List Nat) :
    getVal (writeBack current fl i f2) (i :: π) = getVal f2.val π := by
  cases current with
  | vStruct fl2 =>
    simp only [derefOnce] at h
    cases h
    simp [writeBack, getVal, derefOnce, List.getElem?_set_eq_of_lt _ hi]
  | vPtr z obj =>
    cases obj with
    | none => simp [derefOnce] at h
    | some u =>
      have hu : u = .vStruct fl := h
      subst hu
      simp [writeBack, getVal, derefOnce, List.getElem?_set_eq_of_lt _ hi]
  | vStr s => simp [derefOnce] at h
  | vInt k => simp [derefOnce] at h
  | vBool b => simp [derefOnce] at h
  | vFloat x => simp [derefOnce] at h
  | vOther t => simp [derefOnce] at h

theorem walk_overwrites (P : Parsed) (env : Env) :
    ∀ (π : List Nat) (pfx : String) (v leaf : Value) (nm : String),
      getVal v π = some leaf → isPrim leaf = true →
      flagNameAt pfx v π = some nm → P.changed nm = true →
      getVal (walkValue P env pfx v) π = some (flagWrite P env nm leaf) := by
  intro π
  induction π with
  | nil =>
    intro pfx v leaf nm h1 h2 h3 h4
    simp [flagNameAt] at h3
  | cons i rest ih =>
    intro pfx v leaf nm h1 h2 h3 h4
    cases hd : derefOnce v with
    | vStruct fl =>
      simp only [getVal, hd] at h1
      simp only [flagNameAt, hd] at h3
      cases hf : fl[i]? with
      | none =>
        simp only [hf] at h1
        exact absurd h1 (by simp)
      | some f =>
        simp only [hf] at h1 h3
        by_cases he : f.exported = false
        · rw [if_pos he] at h3
          exact absurd h3 (by simp)
        · rw [if_neg he] at h3
          have hwd := walkValue_deref P env pfx v fl hd
          have hee : f.exported = true := by
            revert he; cases f.exported <;> simp
          simp only [getVal, hwd, walkFields_eq_map, List.getElem?_map, hf,
            Option.map]
          cases rest with
          | nil =>
            simp only [getVal, Option.some.injEq] at h1
            simp only [Option.some.injEq] at h3
            cases f with
            | mk n y j e v0 =>
              simp only [Field.exported_mk] at hee
              subst hee
              simp only [Field.fname_mk, Field.yamlTag_mk] at h3
              simp only [Field.val_mk] at h1
              subst h1
              cases v0 with
              | vStr s0 =>
                simp [walkFieldOne, getVal, h3, h4, flagWrite]
              | vInt k =>
                simp [walkFieldOne, getVal, h3, h4, flagWrite]
              | vBool b =>
                simp [walkFieldOne, getVal, h3, h4, flagWrite]
              | vFloat x =>
                simp [walkFieldOne, getVal, h3, h4, flagWrite]
              | vStruct l => simp [isPrim] at h2
              | vPtr z obj => simp [isPrim] at h2
              | vOther t => simp [isPrim] at h2
          | cons r rs =>
            have hrec := ih (joinName pfx (extName f.fname f.yamlTag)) f.val
              leaf nm h1 h2 h3 h4
            cases f with
            | mk n y j e v0 =>
              simp only [Field.exported_mk] at hee
              subst hee
              simp only [Field.val_mk, Field.fname_mk, Field.yamlTag_mk] at hrec ⊢
              cases v0 with
              | vStruct l =>
                simpa [walkFieldOne, walkValue] using hrec
              | vPtr z obj =>
                cases obj with
                | none => simp [getVal, derefOnce] at h1
                | some u =>
                  cases u with
                  | vStruct l => simpa [walkFieldOne, walkValue] using hrec
                  | vStr s0 => simp [getVal, derefOnce] at h1
                  | vInt k => simp [getVal, derefOnce] at h1
                  | vBool b => simp [getVal, derefOnce] at h1
                  | vFloat x => simp [getVal, derefOnce] at h1
                  | vPtr z2 obj2 => simp [getVal, derefOnce] at h1
                  | vOther t => simp [getVal, derefOnce] at h1
              | vStr s0 => simp [getVal, derefOnce] at h1
              | vInt k => simp [getVal, derefOnce] at h1
              | vBool b => simp [getVal, derefOnce] at h1
              | vFloat x => simp [getVal, derefOnce] at h1
              | vOther t => simp [getVal, derefOnce] at h1
    | vStr s0 => simp [getVal, hd] at h1
    | vInt k => simp [getVal, hd] at h1
    | vBool b => simp [getVal, hd] at h1
    | vFloat x => simp [getVal, hd] at h1
    | vPtr z obj => simp [getVal, hd] at h1
    | vOther t => simp [getVal, hd] at h1

theorem Field.val_withVal (f : Field) (w : Value) : (f.withVal w).val = w := by
  cases f; rfl

theorem getElem?_lt {α : Type} (l : List α) (i : Nat) (a : α)
    (h : l[i]? = some a) : i < l.length := by
  by_contra hc
  rw [List.getElem?_eq_none (by omega)] at h
  exact absurd h (by simp)

theorem svp_writes (pf : String → Option GoFloat) :
    ∀ (segs : List String) (current : Value) (π : List Nat)
      (path value : String) (leaf newLeaf : Value),
      svpLoc current segs = some π →
      getVal current π = some leaf →
      convSet pf value leaf = some newLeaf →
      ∃ v2, svp pf current segs path value = .ok v2 [] ∧
        getVal v2 π = some newLeaf := by
  intro segs
  induction segs with
  | nil =>
    intro current π path value leaf newLeaf hloc
    simp [svpLoc] at hloc
  | cons seg rest ih =>
    intro current π path value leaf newLeaf hloc hget hconv
    cases rest with
    | nil =>
      cases hd : derefOnce current with
      | vStruct fl =>
        simp only [svpLoc, hd] at hloc
        cases hfind : findFieldByNameOrTag fl seg with
        | none => simp [hfind] at hloc
        | some fname =>
          simp only [hfind] at hloc
          cases hby : fieldByName fl fname with
          | none => simp [hby] at hloc
          | some p =>
            obtain ⟨i, f⟩ := p
            simp only [hby] at hloc
            by_cases he : f.exported = false
            · simp [he] at hloc
            · simp only [if_neg he, Option.some.injEq] at hloc
              subst hloc
              obtain ⟨hfi, _⟩ := fieldByName_spec fl fname i f hby
              have hi : i < fl.length := getElem?_lt fl i f hfi
              simp only [getVal, hd, hfi] at hget
              simp only [getVal, Option.some.injEq] at hget
              subst hget
              cases hv : f.val with
              | vStr s0 =>
                refine ⟨writeBack current fl i (f.withVal (.vStr value)), ?_, ?_⟩
                · simp only [svp, hd, hfind, hby, if_neg he, hv]
                · rw [writeBack_getVal current fl i _ hd hi, Field.val_withVal]
                  rw [hv] at hconv
                  simpa [convSet, getVal] using hconv
              | vInt k =>
                rw [hv] at hconv
                simp only [convSet, Option.map_eq_some'] at hconv
                obtain ⟨k2, hk2, hnew⟩ := hconv
                refine ⟨writeBack current fl i (f.withVal (.vInt k2)), ?_, ?_⟩
                · simp only [svp, hd, hfind, hby, if_neg he, hv, hk2]
                · rw [writeBack_getVal current fl i _ hd hi, Field.val_withVal]
                  simp [getVal, hnew]
              | vBool b =>
                rw [hv] at hconv
                simp only [convSet, Option.map_eq_some'] at hconv
                obtain ⟨b2, hb2, hnew⟩ := hconv
                refine ⟨writeBack current fl i (f.withVal (.vBool b2)), ?_, ?_⟩
                · simp only [svp, hd, hfind, hby, if_neg he, hv, hb2]
                · rw [writeBack_getVal current fl i _ hd hi, Field.val_withVal]
                  simp [getVal, hnew]
              | vFloat x =>
                rw [hv] at hconv
                simp only [convSet, Option.map_eq_some'] at hconv
                obtain ⟨x2, hx2, hnew⟩ := hconv
                refine ⟨writeBack current fl i (f.withVal (.vFloat x2)), ?_, ?_⟩
                · simp only [svp, hd, hfind, hby, if_neg he, hv, hx2]
                · rw [writeBack_getVal current fl i _ hd hi, Field.val_withVal]
                  simp [getVal, hnew]
              | vStruct l => rw [hv] at hconv; simp [convSet] at hconv
              | vPtr z obj => rw [hv] at hconv; simp [convSet] at hconv
              | vOther t => rw [hv] at hconv; simp [convSet] at hconv
      | vStr s0 => simp [svpLoc, hd] at hloc
      | vInt k => simp [svpLoc, hd] at hloc
      | vBool b => simp [svpLoc, hd] at hloc
      | vFloat x => simp [svpLoc, hd] at hloc
      | vPtr z obj => simp [svpLoc, hd] at hloc
      | vOther t => simp [svpLoc, hd] at hloc
    | cons r rs =>
      cases hd : derefOnce current with
      | vStruct fl =>
        simp only [svpLoc, hd] at hloc
        cases hfind : findFieldByNameOrTag fl seg with
        | none => simp [hfind] at hloc
        | some fname =>
          simp only [hfind] at hloc
          cases hby : fieldByName fl fname with
          | none => simp [hby] at hloc
          | some p =>
            obtain ⟨i, f⟩ := p
            simp only [hby] at hloc
            by_cases he : f.exported = false
            · simp [he] at hloc
            · simp only [if_neg he] at hloc
              obtain ⟨hfi, _⟩ := fieldByName_spec fl fname i f hby
              have hi : i < fl.length := getElem?_lt fl i f hfi
              cases hv : f.val with
              | vPtr z obj =>
                simp only [hv, Option.map_eq_some'] at hloc
                obtain ⟨π2, hloc2, hπ⟩ := hloc
                subst hπ
                simp only [getVal, hd, hfi] at hget
                rw [hv] at hget
                cases obj with
                | some u =>
                  simp only [Option.getD] at hloc2
                  have hget2 : getVal (Value.vPtr z (.some u)) π2 = some leaf := hget
                  obtain ⟨v2, hsvp, hv2⟩ :=
                    ih (.vPtr z (.some u)) π2 path value leaf newLeaf hloc2 hget2 hconv
                  refine ⟨writeBack current fl i (f.withVal v2), ?_, ?_⟩
                  · simp only [svp, hd, hfind, hby, if_neg he, hv,
                      Option.getD, hsvp]
                  · rw [writeBack_getVal current fl i _ hd hi, Field.val_withVal]
                    exact hv2
                | none =>
                  cases π2 with
                  | nil =>
                    simp only [getVal, Option.some.injEq] at hget
                    rw [← hget] at hconv
                    simp [convSet] at hconv
                  | cons i2 π3 =>
                    simp [getVal, derefOnce] at hget
              | vStruct l =>
                simp only [hv, Option.map_eq_some'] at hloc
                obtain ⟨π2, hloc2, hπ⟩ := hloc
                subst hπ
                simp only [getVal, hd, hfi] at hget
                rw [hv] at hget
                obtain ⟨v2, hsvp, hv2⟩ :=
                  ih (.vStruct l) π2 path value leaf newLeaf hloc2 hget hconv
                refine ⟨writeBack current fl i (f.withVal v2), ?_, ?_⟩
                · simp only [svp, hd, hfind, hby, if_neg he, hv, hsvp]
                · rw [writeBack_getVal current fl i _ hd hi, Field.val_withVal]
                  exact hv2
              | vStr s0 => simp [hv] at hloc
              | vInt k => simp [hv] at hloc
              | vBool b => simp [hv] at hloc
              | vFloat x => simp [hv] at hloc
              | vOther t => simp [hv] at hloc
      | vStr s0 => simp [svpLoc, hd] at hloc
      | vInt k => simp [svpLoc, hd] at hloc
      | vBool b => simp [svpLoc, hd] at hloc
      | vFloat x => simp [svpLoc, hd] at hloc
      | vPtr z obj => simp [svpLoc, hd] at hloc
      | vOther t => simp [svpLoc, hd] at hloc

/-- **C1**: the precedence file < `--from-env` < flag.  (1) `New` hands the
post-decode object to the override resolver, whose from-env preamble runs
before the flag-override walk.  (2) A from-env mapping that resolves to a
leaf stores the converted environment value there; `convSet` inspects only
the leaf's kind, so the stored value is independent of the leaf's prior
(file) value.  (3) The walk then overwrites every primitive leaf whose
flag was explicitly set with the flag's value (`flagWrite` likewise
inspects only the leaf's kind), so a flag value wins over both earlier
sources. -/
theorem override_precedence :
    (∀ (cfg : Value) (parse : FlagSet → Except String Parsed)
      (readFile : String → Except String String)
      (unmarshal : String → Value → Except String Value) (env : Env)
      (pf : String → Option GoFloat) (P : Parsed) (doc : String) (cfg2 : Value),
      parse (regValue "" cfg []).2 = .ok P →
      P.configFile ≠ "" →
      readFile P.configFile = .ok doc →
      unmarshal doc (regValue "" cfg []).1 = .ok cfg2 →
      NewModel cfg parse readFile unmarshal env pf =
        (match applyFlagOverridesRoot P env pf cfg2 with
         | .ok v ds => .ok v ds
         | .panicked ds m => .panicked ds m)) ∧
    (∀ (P : Parsed) (env : Env) (pf : String → Option GoFloat) (v : Value),
      P.fromEnvChanged = true →
      applyFlagOverridesRoot P env pf v =
        (match runFromEnv env pf v P.fromEnv with
         | .ok v1 ds => .ok (walkValue P env "" v1) ds
         | .panicked ds m => .panicked ds m)) ∧
    (∀ (pf : String → Option GoFloat) (v : Value) (path value : String)
      (π : List Nat) (leaf newLeaf : Value),
      svpLoc v (splitDot path) = some π →
      getVal v π = some leaf →
      convSet pf value leaf = some newLeaf →
      ∃ v2, setValueByPath pf v path value = .ok v2 [] ∧
        getVal v2 π = some newLeaf) ∧
    (∀ (P : Parsed) (env : Env) (π : List Nat) (v leaf : Value) (nm : String),
      getVal v π = some leaf → isPrim leaf = true →
      flagNameAt "" v π = some nm → P.changed nm = true →
      getVal (walkValue P env "" v) π = some (flagWrite P env nm leaf)) := by
  refine ⟨?_, ?_, ?_, ?_⟩
  · intro cfg parse readFile unmarshal env pf P doc cfg2 hp hc hr hu
    unfold NewModel
    cases hrv : regValue "" cfg [] with
    | mk cfg1 fs =>
      rw [hrv] at hp hu
      simp only [hp, hu, hr, if_pos hc]
  · intro P env pf v hfe
    unfold applyFlagOverridesRoot
    rw [if_pos hfe]
    cases runFromEnv env pf v P.fromEnv <;> rfl
  · intro pf v path value π leaf newLeaf hloc hget hconv
    exact svp_writes pf (splitDot path) v π path value leaf newLeaf hloc hget hconv
  · intro P env π v leaf nm h1 h2 h3 h4
    exact walk_overwrites P env π "" v leaf nm h1 h2 h3 h4

theorem override_precedence_witness :
    (parsedC1.configFile ≠ "" ∧
      NewModel cfgC1 (fun _ => .ok parsedC1) (fun _ => .ok "doc")
        (fun _ _ => .ok fileC1) envC1 (fun _ => none) =
        (match applyFlagOverridesRoot parsedC1 envC1 (fun _ => none) fileC1 with
         | .ok v ds => .ok v ds
         | .panicked ds m => .panicked ds m)) ∧
    (applyFlagOverridesRoot parsedC1 envC1 (fun _ => none) fileC1 =
      (match runFromEnv envC1 (fun _ => none) fileC1 parsedC1.fromEnv with
       | .ok v1 ds => .ok (walkValue parsedC1 envC1 "" v1) ds
       | .panicked ds m => .panicked ds m)) ∧
    (∃ v2, setValueByPath (fun _ => none) fileC1 "host" "envhost" = .ok v2 [] ∧
      getVal v2 [0] = some (.vStr "envhost")) ∧
    (getVal (walkValue parsedC1 envC1 ""
        (.vStruct [Field.mk "Host" "host" "" true (.vStr "envhost")])) [0] =
      some (flagWrite parsedC1 envC1 "host" (.vStr "envhost"))) := by
  refine ⟨⟨by decide, ?_⟩, ?_, ?_, ?_⟩
  · exact override_precedence.1 cfgC1 (fun _ => .ok parsedC1)
      (fun _ => .ok "doc") (fun _ _ => .ok fileC1) envC1 (fun _ => none)
      parsedC1 "doc" fileC1 rfl (by decide) rfl rfl
  · exact override_precedence.2.1 parsedC1 envC1 (fun _ => none) fileC1 rfl
  · exact override_precedence.2.2.1 (fun _ => none) fileC1 "host" "envhost"
      [0] (.vStr "filehost") (.vStr "envhost") rfl rfl rfl
  · exact override_precedence.2.2.2 parsedC1 envC1 [0]
      (.vStruct [Field.mk "Host" "host" "" true (.vStr "envhost")])
      (.vStr "envhost") "host" rfl rfl rfl rfl

/-- **C3 counterexample**: the explicit `--from-env` code path stores the
environment variable's value verbatim.  With `V=$X` and `X=hello`, the
mapping `name::V` stores the literal `$X` into the leaf, while inline
substitution of `$X` would have produced `hello`; so a string written via
`--from-env` does not undergo `$VAR`/`${VAR}` substitution before being
stored, contradicting the claim. -/
theorem fromEnv_no_inline_subst :
    runFromEnv envC3 (fun _ => none)
      (.vStruct [Field.mk "Name" "" "" true (.vStr "old")]) ["name::V"] =
      .ok (.vStruct [Field.mk "Name" "" "" true (.vStr "$X")]) [] ∧
    resolveEnvVar envC3 "$X" = "hello" ∧
    ("$X" : String) ≠ "hello" :=
  ⟨rfl, rfl, by decide⟩

/-- **C3 amended**: inline `$VAR`/`${VAR}` substitution is a property of
the flag-override code path only.  A string value written into a text leaf
via an explicit `--from-env` mapping is stored verbatim, without
substitution; the flag-override walk, by contrast, does substitute before
storing into a changed text leaf. -/
theorem fromEnv_stores_verbatim :
    (∀ (pf : String → Option GoFloat) (v : Value) (path value : String)
      (π : List Nat) (s0 : String),
      svpLoc v (splitDot path) = some π →
      getVal v π = some (.vStr s0) →
      ∃ v2, setValueByPath pf v path value = .ok v2 [] ∧
        getVal v2 π = some (.vStr value)) ∧
    (∀ (P : Parsed) (env : Env) (pfx n y j : String) (s0 : String),
      P.changed (joinName pfx (extName n y)) = true →
      walkFieldOne P env pfx (.mk n y j true (.vStr s0)) =
        .mk n y j true
          (.vStr (resolveEnvVar env (P.getStr (joinName pfx (extName n y)))))) := by
  constructor
  · intro pf v path value π s0 hloc hget
    exact svp_writes pf (splitDot path) v π path value (.vStr s0)
      (.vStr value) hloc hget rfl
  · intro P env pfx n y j s0 hch
    simp [walkFieldOne, hch]

theorem fromEnv_stores_verbatim_witness :
    (svpLoc (.vStruct [Field.mk "Name" "" "" true (.vStr "old")])
        (splitDot "name") = some [0] ∧
      (∃ v2, setValueByPath (fun _ => none)
          (.vStruct [Field.mk "Name" "" "" true (.vStr "old")]) "name" "$X" =
          .ok v2 [] ∧ getVal v2 [0] = some (.vStr "$X"))) ∧
    (parsedC1.changed (joinName "" (extName "Host" "host")) = true ∧
      walkFieldOne parsedC1 envC1 "" (.mk "Host" "host" "" true (.vStr "w")) =
        .mk "Host" "host" "" true
          (.vStr (resolveEnvVar envC1
            (parsedC1.getStr (joinName "" (extName "Host" "host")))))) := by
  refine ⟨⟨rfl, ?_⟩, ⟨rfl, ?_⟩⟩
  · exact fromEnv_stores_verbatim.1 (fun _ => none)
      (.vStruct [Field.mk "Name" "" "" true (.vStr "old")]) "name" "$X"
      [0] "old" rfl rfl
  · exact fromEnv_stores_verbatim.2 parsedC1 envC1 "" "Host" "host" "" "w" rfl

theorem runFromEnv_all_bad (env : Env) (pf : String → Option GoFloat) :
    ∀ (pairs : List String) (v : Value) (ds0 : List Diag),
      (∀ pair ∈ pairs, badEntry env pair) →
      ∃ ds, List.foldl (fromEnvStep env pf) (.ok v ds0) pairs = .ok v ds := by
  intro pairs
  induction pairs with
  | nil => intro v ds0 _; exact ⟨ds0, rfl⟩
  | cons p ps ih =>
    intro v ds0 hbad
    have hp := hbad p (by simp)
    have hstep : ∃ d, fromEnvStep env pf (.ok v ds0) p = .ok v (ds0 ++ [d]) := by
      by_cases hlen : (splitN2 p).length ≠ 2
      · refine ⟨.invalidFromEnvFormat p, ?_⟩
        simp only [fromEnvStep]
        rw [if_pos hlen]
      · have h2 : env (strTrim ((splitN2 p).getD 1 "")) = "" := by
          cases hp with
          | inl h => exact absurd h hlen
          | inr h => exact h
        refine ⟨.envVarNotSet (strTrim ((splitN2 p).getD 1 "")), ?_⟩
        simp only [fromEnvStep]
        rw [if_neg hlen, if_pos h2]
    obtain ⟨d, hd⟩ := hstep
    simp only [List.foldl, hd]
    exact ih v (ds0 ++ [d]) (fun q hq => hbad q (by simp [hq]))

/-- **C6**: a malformed `--from-env` entry (no `::`), and an entry whose
named environment variable is unset or empty, are each skipped after
emitting exactly one diagnostic, leaving the object untouched; and a run
whose every entry is bad still completes resolution with a nil error: the
flag walk still runs and `New` returns the populated object. -/
theorem fromEnv_bad_entries_skipped :
    (∀ (env : Env) (pf : String → Option GoFloat) (v : Value) (ds : List Diag)
      (pair : String), (splitN2 pair).length ≠ 2 →
      fromEnvStep env pf (.ok v ds) pair =
        .ok v (ds ++ [.invalidFromEnvFormat pair])) ∧
    (∀ (env : Env) (pf : String → Option GoFloat) (v : Value) (ds : List Diag)
      (pair : String), (splitN2 pair).length = 2 →
      env (strTrim ((splitN2 pair).getD 1 "")) = "" →
      fromEnvStep env pf (.ok v ds) pair =
        .ok v (ds ++ [.envVarNotSet (strTrim ((splitN2 pair).getD 1 ""))])) ∧
    (∀ (cfg : Value) (parse : FlagSet → Except String Parsed)
      (readFile : String → Except String String)
      (unmarshal : String → Value → Except String Value) (env : Env)
      (pf : String → Option GoFloat) (P : Parsed),
      parse (regValue "" cfg []).2 = .ok P →
      P.configFile = "" →
      (∀ pair ∈ P.fromEnv, badEntry env pair) →
      ∃ ds, NewModel cfg parse readFile unmarshal env pf =
        .ok (walkValue P env "" (regValue "" cfg []).1) ds) := by
  refine ⟨?_, ?_, ?_⟩
  · intro env pf v ds pair hlen
    simp only [fromEnvStep]
    rw [if_pos hlen]
  · intro env pf v ds pair hlen h2
    have hlen2 : ¬(splitN2 pair).length ≠ 2 := by omega
    simp only [fromEnvStep]
    rw [if_neg hlen2, if_pos h2]
  · intro cfg parse readFile unmarshal env pf P hp hc hbad
    unfold NewModel
    cases hrv : regValue "" cfg [] with
    | mk cfg1 fs =>
      rw [hrv] at hp
      simp only [hp, hc]
      rw [if_neg (by simp)]
      unfold applyFlagOverridesRoot
      by_cases hfe : P.fromEnvChanged = true
      · rw [if_pos hfe]
        obtain ⟨ds, hds⟩ := runFromEnv_all_bad env pf P.fromEnv cfg1 [] hbad
        unfold runFromEnv
        rw [hds]
        exact ⟨ds, rfl⟩
      · rw [if_neg hfe]
        exact ⟨[], rfl⟩

theorem fromEnv_bad_entries_skipped_witness :
    ((splitN2 "onlyonepart").length ≠ 2 ∧
      fromEnvStep envEmpty (fun _ => none) (.ok cfgC1 []) "onlyonepart" =
        .ok cfgC1 [.invalidFromEnvFormat "onlyonepart"]) ∧
    ((splitN2 "database.port::DB_PORT").length = 2 ∧
      fromEnvStep envEmpty (fun _ => none) (.ok cfgC1 [])
          "database.port::DB_PORT" =
        .ok cfgC1 [.envVarNotSet
          (strTrim ((splitN2 "database.port::DB_PORT").getD 1 ""))]) ∧
    (∃ ds, NewModel cfgC1 (fun _ => .ok parsedC6) (fun _ => .ok "")
        (fun _ _ => .ok cfgC1) envEmpty (fun _ => none) =
      .ok (walkValue parsedC6 envEmpty "" (regValue "" cfgC1 []).1) ds) := by
  refine ⟨⟨by decide, ?_⟩, ⟨by decide, ?_⟩, ?_⟩
  · simpa using fromEnv_bad_entries_skipped.1 envEmpty (fun _ => none)
      cfgC1 [] "onlyonepart" (by decide)
  · simpa using fromEnv_bad_entries_skipped.2.1 envEmpty (fun _ => none)
      cfgC1 [] "database.port::DB_PORT" (by decide) rfl
  · exact fromEnv_bad_entries_skipped.2.2 cfgC1 (fun _ => .ok parsedC6)
      (fun _ => .ok "") (fun _ _ => .ok cfgC1) envEmpty (fun _ => none)
      parsedC6 rfl rfl (by decide)

/-- **C5 counterexample**: a run in which none of the three fatal
conditions holds (flag parsing succeeds and no config file is given), yet
`New` does not return the populated object with a nil error: the
`--from-env` path `a.x` navigates through the pointer-to-int field `A`,
and the final segment's field lookup calls `NumField` on the non-struct
`int`, which panics inside `reflect` instead of returning. -/
theorem New_can_panic_instead_of_returning :
    parsedC5.configFile = "" ∧
    NewModel cfgC5 (fun _ => .ok parsedC5) (fun _ => .error "unused")
      (fun _ _ => .error "unused") envC5 (fun _ => none) =
      .panicked [] "reflect: NumField of non-struct type" := by
  have hreg : regValue "" cfgC5 [] =
      (.vStruct [Field.mk "A" "" "" true (.vPtr (.vInt 0) (.some (.vInt 0)))],
        []) := by
    simp [regValue, regFields, cfgC5, joinName, extName, commaHead]
  refine ⟨rfl, ?_⟩
  unfold NewModel
  rw [hreg]
  rfl

/-- **C5 amended**: `New` returns a non-nil error exactly in the three
fatal cases — argument-parse failure, config file specified but unreadable,
config file specified but failing decode, the latter two wrapped with
phase context — and in every other case (no config file supplied, or a
config file whose read and decode both succeed) the outcome is exactly
the outcome of override application over the registered respectively
decoded object, which itself can only be the populated object with a nil
error and diagnostics, or a reflection panic that prevents returning at
all — never an error; so diagnostics never change the returned error
value. -/
theorem New_error_characterization :
    (∀ (cfg : Value) (parse : FlagSet → Except String Parsed)
      (readFile : String → Except String String)
      (unmarshal : String → Value → Except String Value) (env : Env)
      (pf : String → Option GoFloat) (e : String),
      parse (regValue "" cfg []).2 = .error e →
      NewModel cfg parse readFile unmarshal env pf = .err e) ∧
    (∀ (cfg : Value) (parse : FlagSet → Except String Parsed)
      (readFile : String → Except String String)
      (unmarshal : String → Value → Except String Value) (env : Env)
      (pf : String → Option GoFloat) (P : Parsed) (e : String),
      parse (regValue "" cfg []).2 = .ok P → P.configFile ≠ "" →
      readFile P.configFile = .error e →
      NewModel cfg parse readFile unmarshal env pf =
        .err ("failed to read config file: " ++ e)) ∧
    (∀ (cfg : Value) (parse : FlagSet → Except String Parsed)
      (readFile : String → Except String String)
      (unmarshal : String → Value → Except String Value) (env : Env)
      (pf : String → Option GoFloat) (P : Parsed) (doc e : String),
      parse (regValue "" cfg []).2 = .ok P → P.configFile ≠ "" →
      readFile P.configFile = .ok doc →
      unmarshal doc (regValue "" cfg []).1 = .error e →
      NewModel cfg parse readFile unmarshal env pf =
        .err ("failed to unmarshal config file: " ++ e)) ∧
    (∀ (cfg : Value) (parse : FlagSet → Except String Parsed)
      (readFile : String → Except String String)
      (unmarshal : String → Value → Except String Value) (env : Env)
      (pf : String → Option GoFloat) (P : Parsed),
      parse (regValue "" cfg []).2 = .ok P → P.configFile = "" →
      NewModel cfg parse readFile unmarshal env pf =
        (match applyFlagOverridesRoot P env pf (regValue "" cfg []).1 with
         | .ok v ds => .ok v ds
         | .panicked ds m => .panicked ds m)) ∧
    (∀ (cfg : Value) (parse : FlagSet → Except String Parsed)
      (readFile : String → Except String String)
      (unmarshal : String → Value → Except String Value) (env : Env)
      (pf : String → Option GoFloat) (P : Parsed) (doc : String)
      (cfg2 : Value),
      parse (regValue "" cfg []).2 = .ok P → P.configFile ≠ "" →
      readFile P.configFile = .ok doc →
      unmarshal doc (regValue "" cfg []).1 = .ok cfg2 →
      NewModel cfg parse readFile unmarshal env pf =
        (match applyFlagOverridesRoot P env pf cfg2 with
         | .ok v ds => .ok v ds
         | .panicked ds m => .panicked ds m)) ∧
    (∀ (P : Parsed) (env : Env) (pf : String → Option GoFloat) (v : Value),
      (∃ v2 ds, applyFlagOverridesRoot P env pf v = .ok v2 ds) ∨
      (∃ ds m, applyFlagOverridesRoot P env pf v = .panicked ds m)) := by
  refine ⟨?_, ?_, ?_, ?_, ?_, ?_⟩
  · intro cfg parse readFile unmarshal env pf e hp
    unfold NewModel
    cases hrv : regValue "" cfg [] with
    | mk cfg1 fs =>
      rw [hrv] at hp
      simp only [hp]
  · intro cfg parse readFile unmarshal env pf P e hp hc hr
    unfold NewModel
    cases hrv : regValue "" cfg [] with
    | mk cfg1 fs =>
      rw [hrv] at hp
      simp only [hp, hr, if_pos hc]
  · intro cfg parse readFile unmarshal env pf P doc e hp hc hr hu
    unfold NewModel
    cases hrv : regValue "" cfg [] with
    | mk cfg1 fs =>
      rw [hrv] at hp hu
      simp only [hp, hr, hu, if_pos hc]
  · intro cfg parse readFile unmarshal env pf P hp hc
    unfold NewModel
    cases hrv : regValue "" cfg [] with
    | mk cfg1 fs =>
      rw [hrv] at hp
      simp only [hp, hc]
      rw [if_neg (by simp)]
  · intro cfg parse readFile unmarshal env pf P doc cfg2 hp hc hr hu
    unfold NewModel
    cases hrv : regValue "" cfg [] with
    | mk cfg1 fs =>
      rw [hrv] at hp hu
      simp only [hp, hr, hu, if_pos hc]
  · intro P env pf v
    cases h : applyFlagOverridesRoot P env pf v with
    | ok v2 ds => exact Or.inl ⟨v2, ds, rfl⟩
    | panicked ds m => exact Or.inr ⟨ds, m, rfl⟩

theorem New_error_characterization_witness :
    (NewModel cfgC1 (fun _ => .error "boom") (fun _ => .ok "")
        (fun _ _ => .ok cfgC1) envEmpty (fun _ => none) = .err "boom") ∧
    (parsedC1.configFile ≠ "" ∧
      NewModel cfgC1 (fun _ => .ok parsedC1) (fun _ => .error "nope")
        (fun _ _ => .ok cfgC1) envEmpty (fun _ => none) =
        .err ("failed to read config file: " ++ "nope")) ∧
    (NewModel cfgC1 (fun _ => .ok parsedC1) (fun _ => .ok "doc")
        (fun _ _ => .error "badyaml") envEmpty (fun _ => none) =
        .err ("failed to unmarshal config file: " ++ "badyaml")) ∧
    (parsedC6.configFile = "" ∧
      NewModel cfgC1 (fun _ => .ok parsedC6) (fun _ => .ok "")
        (fun _ _ => .ok cfgC1) envEmpty (fun _ => none) =
        (match applyFlagOverridesRoot parsedC6 envEmpty (fun _ => none)
            (regValue "" cfgC1 []).1 with
         | .ok v ds => .ok v ds
         | .panicked ds m => .panicked ds m)) ∧
    (parsedC1.configFile ≠ "" ∧
      NewModel cfgC1 (fun _ => .ok parsedC1) (fun _ => .ok "doc")
        (fun _ _ => .ok cfgC1) envEmpty (fun _ => none) =
        (match applyFlagOverridesRoot parsedC1 envEmpty (fun _ => none)
            cfgC1 with
         | .ok v ds => .ok v ds
         | .panicked ds m => .panicked ds m)) := by
  refine ⟨?_, ⟨by decide, ?_⟩, ?_, ⟨rfl, ?_⟩, ⟨by decide, ?_⟩⟩
  · exact New_error_characterization.1 cfgC1 (fun _ => .error "boom")
      (fun _ => .ok "") (fun _ _ => .ok cfgC1) envEmpty (fun _ => none)
      "boom" rfl
  · exact New_error_characterization.2.1 cfgC1 (fun _ => .ok parsedC1)
      (fun _ => .error "nope") (fun _ _ => .ok cfgC1) envEmpty (fun _ => none)
      parsedC1 "nope" rfl (by decide) rfl
  · exact New_error_characterization.2.2.1 cfgC1 (fun _ => .ok parsedC1)
      (fun _ => .ok "doc") (fun _ _ => .error "badyaml") envEmpty
      (fun _ => none) parsedC1 "doc" "badyaml" rfl (by decide) rfl rfl
  · exact New_error_characterization.2.2.2.1 cfgC1 (fun _ => .ok parsedC6)
      (fun _ => .ok "") (fun _ _ => .ok cfgC1) envEmpty (fun _ => none)
      parsedC6 rfl rfl
  · exact New_error_characterization.2.2.2.2.1 cfgC1 (fun _ => .ok parsedC1)
      (fun _ => .ok "doc") (fun _ _ => .ok cfgC1) envEmpty (fun _ => none)
      parsedC1 "doc" cfgC1 rfl (by decide) rfl rfl

theorem noNilFields_unexp (n y j : String) (v : Value) (rest : List Field) :
    noNilFields (.mk n y j false v :: rest) = noNilFields rest := by
  cases v with
  | vPtr z obj =>
    cases obj with
    | none => simp [noNilFields]
    | some u => cases u <;> simp [noNilFields]
  | vStr s => simp [noNilFields]
  | vInt k => simp [noNilFields]
  | vBool b => simp [noNilFields]
  | vFloat x => simp [noNilFields]
  | vStruct l => simp [noNilFields]
  | vOther t => simp [noNilFields]

theorem regFields_noNil (pfx : String) (fl : List Field) (fs : FlagSet) :
    noNilFields (regFields pfx fl fs).1 = true := by
  induction pfx, fl, fs using regFields.induct <;>
    simp_all [regFields, noNilFields, noNilFields_unexp]

theorem walkFields_id (P : Parsed) (env : Env)
    (h : ∀ n, P.changed n = false) :
    ∀ (pfx : String) (fl : List Field), walkFields P env pfx fl = fl := by
  intro pfx fl
  induction pfx, fl using walkFields.induct P env with
  | case1 pfx => simp [walkFields]
  | case2 pfx n y j v rest ih => simp [walkFields, ih]
  | case3 pfx n y j e v rest he ih2 ih1 =>
    cases v with
    | vPtr z obj =>
      cases obj with
      | none => simp_all [walkFields, h]
      | some u => cases u <;> simp_all [walkFields, h]
    | vStr s => simp_all [walkFields, h]
    | vInt k => simp_all [walkFields, h]
    | vBool b => simp_all [walkFields, h]
    | vFloat x => simp_all [walkFields, h]
    | vStruct l => simp_all [walkFields, h]
    | vOther t => simp_all [walkFields, h]

theorem walkValue_id (P : Parsed) (env : Env)
    (h : ∀ n, P.changed n = false) (pfx : String) (v : Value) :
    walkValue P env pfx v = v := by
  cases v with
  | vStruct fl => simp [walkValue, walkFields_id P env h]
  | vPtr z obj =>
    cases obj with
    | none => rfl
    | some u =>
      cases u with
      | vStruct fl => simp [walkValue, walkFields_id P env h]
      | vStr s => rfl
      | vInt k => rfl
      | vBool b => rfl
      | vFloat x => rfl
      | vPtr z2 o2 => rfl
      | vOther t => rfl
  | vStr s => rfl
  | vInt k => rfl
  | vBool b => rfl
  | vFloat x => rfl
  | vOther t => rfl

/-- **C10**: resolution mutates the object even without assigning any
leaf.  (1) After flag registration — which `New` runs before parsing any
flag — no walk-reachable exported optional pointer is nil.  (2) A run with
no flags set, no file and no mappings still returns the object as
registration left it: nil optional sub-structures come back allocated.
(3) A `--from-env` mapping whose final segment fails (unknown field) still
leaves the intermediate optional struct allocated, because navigation
allocates before the failure is detected. -/
theorem resolution_allocates_optionals :
    (∀ (pfx : String) (fl : List Field) (fs : FlagSet),
      noNilFields (regFields pfx fl fs).1 = true) ∧
    (∀ (fl : List Field) (parse : FlagSet → Except String Parsed)
      (readFile : String → Except String String)
      (unmarshal : String → Value → Except String Value) (env : Env)
      (pf : String → Option GoFloat) (P : Parsed),
      parse (regValue "" (.vStruct fl) []).2 = .ok P →
      P.configFile = "" → P.fromEnvChanged = false →
      (∀ n, P.changed n = false) →
      NewModel (.vStruct fl) parse readFile unmarshal env pf =
        .ok (.vStruct (regFields "" fl []).1) []) ∧
    (runFromEnv (fun n => if n = "V" then "1" else "") (fun _ => none)
        (.vStruct [Field.mk "A" "" "" true (.vPtr zB none)]) ["a.bogus::V"] =
      .ok (.vStruct [Field.mk "A" "" "" true (.vPtr zB (.some zB))])
        [.fieldNotFound "bogus" "a.bogus"]) := by
  refine ⟨regFields_noNil, ?_, rfl⟩
  intro fl parse readFile unmarshal env pf P hp hc hfe hch
  unfold NewModel
  cases hre : regFields "" fl [] with
  | mk fl2 fs2 =>
    have hrv : regValue "" (.vStruct fl) [] = (.vStruct fl2, fs2) := by
      simp [regValue, hre]
    rw [hrv] at hp
    rw [hrv]
    simp only [hp, hc]
    rw [if_neg (by simp)]
    unfold applyFlagOverridesRoot
    rw [if_neg (by simp [hfe])]
    simp [walkValue_id P env hch]

theorem resolution_allocates_optionals_witness :
    noNilFields (regFields "" [Field.mk "A" "" "" true (.vPtr zB none)] []).1 =
      true ∧
    NewModel (.vStruct [Field.mk "A" "" "" true (.vPtr zB none)])
        (fun _ => .ok parsedC10) (fun _ => .ok "") (fun _ _ => .ok cfgC1)
        envEmpty (fun _ => none) =
      .ok (.vStruct
        (regFields "" [Field.mk "A" "" "" true (.vPtr zB none)] []).1) [] := by
  constructor
  · exact resolution_allocates_optionals.1 ""
      [Field.mk "A" "" "" true (.vPtr zB none)] []
  · exact resolution_allocates_optionals.2.1
      [Field.mk "A" "" "" true (.vPtr zB none)] (fun _ => .ok parsedC10)
      (fun _ => .ok "") (fun _ _ => .ok cfgC1) envEmpty (fun _ => none)
      parsedC10 rfl rfl rfl (fun _ => rfl)

theorem regFields_fst_indep :
    ∀ (pfx : String) (fl : List Field) (fs fs2 : FlagSet),
      (regFields pfx fl fs).1 = (regFields pfx fl fs2).1 := by
  intro pfx fl fs
  induction pfx, fl, fs using regFields.induct <;> intro fs2 <;>
    simp_all [regFields] <;> (try constructor) <;> solve_by_elim

theorem regFields_fst_bridge (a : String) (l m : List Field)
    (fs fs2 : FlagSet) (h : regFields a l fs = (m, fs2)) :
    m = (regFields a l []).1 := by
  have h1 : (regFields a l fs).1 = m := by rw [h]
  rw [← h1]
  exact regFields_fst_indep a l fs []

theorem regFields_fst_map :
    ∀ (pfx : String) (fl : List Field) (fs : FlagSet),
      (regFields pfx fl fs).1 = fl.map (regFieldOne pfx) := by
  intro pfx fl fs
  induction pfx, fl, fs using regFields.induct <;>
    simp_all [regFields, regFieldOne, regFieldVal] <;>
    solve_by_elim [regFields_fst_bridge]

theorem regValue_fst_struct (pfx : String) (l : List Field) (fs : FlagSet) :
    (regValue pfx (.vStruct l) fs).1 = .vStruct (regFields pfx l fs).1 := by
  cases hre : regFields pfx l fs with
  | mk a b => simp [regValue, hre]

theorem regValue_deref (pfx : String) (v : Value) (fs : FlagSet)
    (fl : List Field) (h : derefOnce v = .vStruct fl) :
    derefOnce (regValue pfx v fs).1 = .vStruct (regFields pfx fl fs).1 := by
  cases v with
  | vStruct fl2 =>
    simp only [derefOnce] at h
    cases h
    cases hre : regFields pfx fl fs with
    | mk a b => simp [regValue, hre, derefOnce]
  | vPtr z obj =>
    cases obj with
    | none => simp [derefOnce] at h
    | some u =>
      have hu : u = .vStruct fl := h
      subst hu
      cases hre : regFields pfx fl fs with
      | mk a b => simp [regValue, hre, derefOnce]
  | vStr s => simp [derefOnce] at h
  | vInt k => simp [derefOnce] at h
  | vBool b => simp [derefOnce] at h
  | vFloat x => simp [derefOnce] at h
  | vOther t => simp [derefOnce] at h

theorem getField_ptrStruct (z : Value) (fl : List Field) (π : List Nat) :
    getField (.vPtr z (.some (.vStruct fl))) π = getField (.vStruct fl) π := by
  cases π <;> rfl

theorem reg_unexp :
    ∀ (π : List Nat) (pfx : String) (v : Value) (fs : FlagSet) (f : Field),
      getField v π = some f → f.exported = false →
      getField (regValue pfx v fs).1 π = some f := by
  intro π
  induction π with
  | nil => intro pfx v fs f h1 h2; simp [getField] at h1
  | cons i rest ih =>
    intro pfx v fs f h1 h2
    cases hd : derefOnce v with
    | vStruct fl =>
      simp only [getField, hd] at h1
      cases hf : fl[i]? with
      | none => simp [hf] at h1
      | some g =>
        simp only [hf] at h1
        have hderef := regValue_deref pfx v fs fl hd
        simp only [getField, hderef, regFields_fst_map, List.getElem?_map, hf,
          Option.map]
        cases rest with
        | nil =>
          simp only [Option.some.injEq] at h1
          subst h1
          simp [regFieldOne, h2]
        | cons r rs =>
          have h1 : getField g.val (r :: rs) = some f := h1
          by_cases hge : g.exported = false
          · simp [regFieldOne, hge, h1]
          · have hge2 : g.exported = true := by
              revert hge; cases g.exported <;> simp
            cases g with
            | mk n y j e v0 =>
              simp only [Field.exported_mk] at hge2
              subst hge2
              simp only [Field.val_mk] at h1
              simp only [regFieldOne, Field.exported_mk, Bool.true_eq_false,
                if_false, Field.withVal_mk, Field.fname_mk, Field.yamlTag_mk,
                Field.val_mk]
              cases v0 with
              | vStruct l =>
                have hrec := ih (joinName pfx (extName n y)) (.vStruct l) []
                  f h1 h2
                rw [regValue_fst_struct] at hrec
                simpa [regFieldVal] using hrec
              | vPtr z obj =>
                cases obj with
                | none => simp [getField, derefOnce] at h1
                | some u =>
                  cases u with
                  | vStruct l =>
                    rw [getField_ptrStruct] at h1
                    have hrec := ih (joinName pfx (extName n y)) (.vStruct l)
                      [] f h1 h2
                    rw [regValue_fst_struct] at hrec
                    simpa [regFieldVal, getField_ptrStruct] using hrec
                  | vStr s0 => simp [getField, derefOnce] at h1
                  | vInt k => simp [getField, derefOnce] at h1
                  | vBool b => simp [getField, derefOnce] at h1
                  | vFloat x => simp [getField, derefOnce] at h1
                  | vPtr z2 o2 => simp [getField, derefOnce] at h1
                  | vOther t => simp [getField, derefOnce] at h1
              | vStr s0 => simp [getField, derefOnce] at h1
              | vInt k => simp [getField, derefOnce] at h1
              | vBool b => simp [getField, derefOnce] at h1
              | vFloat x => simp [getField, derefOnce] at h1
              | vOther t => simp [getField, derefOnce] at h1
    | vStr s0 => simp [getField, hd] at h1
    | vInt k => simp [getField, hd] at h1
    | vBool b => simp [getField, hd] at h1
    | vFloat x => simp [getField, hd] at h1
    | vPtr z obj => simp [getField, hd] at h1
    | vOther t => simp [getField, hd] at h1

theorem walk_unexp (P : Parsed) (env : Env) :
    ∀ (π : List Nat) (pfx : String) (v : Value) (f : Field),
      getField v π = some f → f.exported = false →
      getField (walkValue P env pfx v) π = some f := by
  intro π
  induction π with
  | nil => intro pfx v f h1 h2; simp [getField] at h1
  | cons i rest ih =>
    intro pfx v f h1 h2
    cases hd : derefOnce v with
    | vStruct fl =>
      simp only [getField, hd] at h1
      cases hf : fl[i]? with
      | none => simp [hf] at h1
      | some g =>
        simp only [hf] at h1
        have hderef := walkValue_deref P env pfx v fl hd
        simp only [getField, hderef, walkFields_eq_map, List.getElem?_map, hf,
          Option.map]
        cases rest with
        | nil =>
          have h1 : some g = some f := h1
          simp only [Option.some.injEq] at h1
          subst h1
          cases g with
          | mk n y j e v0 =>
            simp only [Field.exported_mk] at h2
            subst h2
            simp [walkFieldOne]
        | cons r rs =>
          have h1 : getField g.val (r :: rs) = some f := h1
          by_cases hge : g.exported = false
          · cases g with
            | mk n y j e v0 =>
              simp only [Field.exported_mk] at hge
              subst hge
              simp only [Field.val_mk] at h1
              simp [walkFieldOne, h1]
          · have hge2 : g.exported = true := by
              revert hge; cases g.exported <;> simp
            cases g with
            | mk n y j e v0 =>
              simp only [Field.exported_mk] at hge2
              subst hge2
              simp only [Field.val_mk] at h1
              simp only [walkFieldOne, Field.exported_mk, Bool.true_eq_false,
                if_false]
              cases v0 with
              | vStruct l =>
                have hrec := ih (joinName pfx (extName n y)) (.vStruct l) f h1 h2
                simpa [walkValue] using hrec
              | vPtr z obj =>
                cases obj with
                | none => simp [getField, derefOnce] at h1
                | some u =>
                  cases u with
                  | vStruct l =>
                    rw [getField_ptrStruct] at h1
                    have hrec := ih (joinName pfx (extName n y)) (.vStruct l)
                      f h1 h2
                    simpa [walkValue, getField_ptrStruct] using hrec
                  | vStr s0 => simp [getField, derefOnce] at h1
                  | vInt k => simp [getField, derefOnce] at h1
                  | vBool b => simp [getField, derefOnce] at h1
                  | vFloat x => simp [getField, derefOnce] at h1
                  | vPtr z2 o2 => simp [getField, derefOnce] at h1
                  | vOther t => simp [getField, derefOnce] at h1
              | vStr s0 => simp [getField, derefOnce] at h1
              | vInt k => simp [getField, derefOnce] at h1
              | vBool b => simp [getField, derefOnce] at h1
              | vFloat x => simp [getField, derefOnce] at h1
              | vOther t => simp [getField, derefOnce] at h1
    | vStr s0 => simp [getField, hd] at h1
    | vInt k => simp [getField, hd] at h1
    | vBool b => simp [getField, hd] at h1
    | vFloat x => simp [getField, hd] at h1
    | vPtr z obj => simp [getField, hd] at h1
    | vOther t => simp [getField, hd] at h1

theorem SetRes_ok_inj (a b : Value) (d1 d2 : List Diag)
    (h : SetRes.ok a d1 = SetRes.ok b d2) : a = b := by
  cases h; rfl

theorem writeBack_deref (current : Value) (fl : List Field) (i0 : Nat)
    (f2 : Field) (h : derefOnce current = .vStruct fl) :
    derefOnce (writeBack current fl i0 f2) = .vStruct (fl.set i0 f2) := by
  cases current with
  | vStruct fl2 =>
    simp only [derefOnce] at h
    cases h
    simp [writeBack, derefOnce]
  | vPtr z obj =>
    cases obj with
    | none => simp [derefOnce] at h
    | some u =>
      have hu : u = .vStruct fl := h
      subst hu
      simp [writeBack, derefOnce]
  | vStr s => simp [derefOnce] at h
  | vInt k => simp [derefOnce] at h
  | vBool b => simp [derefOnce] at h
  | vFloat x => simp [derefOnce] at h
  | vOther t => simp [derefOnce] at h

theorem writeBack_unexp (current : Value) (fl : List Field) (i0 : Nat)
    (f0 : Field) (w : Value) (hd : derefOnce current = .vStruct fl)
    (hfi : fl[i0]? = some f0) (he : f0.exported = true)
    (hsub : ∀ (π : List Nat) (f : Field), getField f0.val π = some f →
      f.exported = false → getField w π = some f) :
    ∀ (π : List Nat) (f : Field), getField current π = some f →
      f.exported = false →
      getField (writeBack current fl i0 (f0.withVal w)) π = some f := by
  intro π f h1 h2
  cases π with
  | nil => simp [getField] at h1
  | cons i restπ =>
    simp only [getField, hd] at h1
    have hwb := writeBack_deref current fl i0 (f0.withVal w) hd
    simp only [getField, hwb]
    by_cases hi : i = i0
    · subst hi
      have hlen : i < fl.length := getElem?_lt fl i f0 hfi
      simp only [hfi] at h1
      simp only [List.getElem?_set_eq_of_lt _ hlen]
      cases restπ with
      | nil =>
        have h1 : some f0 = some f := h1
        simp only [Option.some.injEq] at h1
        subst h1
        rw [he] at h2
        exact absurd h2 (by simp)
      | cons q qs =>
        have h1 : getField f0.val (q :: qs) = some f := h1
        have hres := hsub (q :: qs) f h1 h2
        simpa [Field.val_withVal] using hres
    · rw [List.getElem?_set_ne (fun hc => hi hc.symm)]
      exact h1

theorem svp_unexp (pf : String → Option GoFloat) :
    ∀ (segs : List String) (current : Value) (path value : String)
      (v2 : Value) (ds : List Diag),
      svp pf current segs path value = .ok v2 ds →
      ∀ (π : List Nat) (f : Field), getField current π = some f →
        f.exported = false → getField v2 π = some f := by
  intro segs
  induction segs with
  | nil =>
    intro current path value v2 ds h
    simp only [svp] at h
    cases SetRes_ok_inj _ _ _ _ h
    intro π f h1 _
    exact h1
  | cons seg rest ih =>
    intro current path value v2 ds h
    cases rest with
    | nil =>
      cases hd : derefOnce current with
      | vStruct fl =>
        simp only [svp, hd] at h
        cases hfind : findFieldByNameOrTag fl seg with
        | none =>
          simp only [hfind] at h
          cases SetRes_ok_inj _ _ _ _ h
          intro π f h1 _; exact h1
        | some fname =>
          simp only [hfind] at h
          cases hby : fieldByName fl fname with
          | none =>
            simp only [hby] at h
            cases SetRes_ok_inj _ _ _ _ h
            intro π f h1 _; exact h1
          | some p =>
            obtain ⟨i0, f0⟩ := p
            simp only [hby] at h
            by_cases he : f0.exported = false
            · simp only [if_pos he] at h
              cases SetRes_ok_inj _ _ _ _ h
              intro π f h1 _; exact h1
            · simp only [if_neg he] at h
              have he2 : f0.exported = true := by
                revert he; cases f0.exported <;> simp
              obtain ⟨hfi, _⟩ := fieldByName_spec fl fname i0 f0 hby
              cases hv0 : f0.val with
              | vStr s0 =>
                simp only [hv0] at h
                cases SetRes_ok_inj _ _ _ _ h
                exact writeBack_unexp current fl i0 f0 (.vStr value) hd hfi he2
                  (fun π2 g hg _ => by
                    rw [hv0] at hg
                    cases π2 <;> simp [getField, derefOnce] at hg)
              | vInt k =>
                simp only [hv0] at h
                cases hpi : parseInt64 value with
                | none =>
                  simp only [hpi] at h
                  cases SetRes_ok_inj _ _ _ _ h
                  intro π f h1 _; exact h1
                | some k2 =>
                  simp only [hpi] at h
                  cases SetRes_ok_inj _ _ _ _ h
                  exact writeBack_unexp current fl i0 f0 (.vInt k2) hd hfi he2
                    (fun π2 g hg _ => by
                      rw [hv0] at hg
                      cases π2 <;> simp [getField, derefOnce] at hg)
              | vBool b =>
                simp only [hv0] at h
                cases hpb : parseBool value with
                | none =>
                  simp only [hpb] at h
                  cases SetRes_ok_inj _ _ _ _ h
                  intro π f h1 _; exact h1
                | some b2 =>
                  simp only [hpb] at h
                  cases SetRes_ok_inj _ _ _ _ h
                  exact writeBack_unexp current fl i0 f0 (.vBool b2) hd hfi he2
                    (fun π2 g hg _ => by
                      rw [hv0] at hg
                      cases π2 <;> simp [getField, derefOnce] at hg)
              | vFloat x =>
                simp only [hv0] at h
                cases hpf : pf value with
                | none =>
                  simp only [hpf] at h
                  cases SetRes_ok_inj _ _ _ _ h
                  intro π f h1 _; exact h1
                | some x2 =>
                  simp only [hpf] at h
                  cases SetRes_ok_inj _ _ _ _ h
                  exact writeBack_unexp current fl i0 f0 (.vFloat x2) hd hfi he2
                    (fun π2 g hg _ => by
                      rw [hv0] at hg
                      cases π2 <;> simp [getField, derefOnce] at hg)
              | vStruct l =>
                simp only [hv0] at h
                cases SetRes_ok_inj _ _ _ _ h
                intro π f h1 _; exact h1
              | vPtr z obj =>
                simp only [hv0] at h
                cases SetRes_ok_inj _ _ _ _ h
                intro π f h1 _; exact h1
              | vOther t =>
                simp only [hv0] at h
                cases SetRes_ok_inj _ _ _ _ h
                intro π f h1 _; exact h1
      | vStr s0 => simp [svp, hd] at h
      | vInt k => simp [svp, hd] at h
      | vBool b => simp [svp, hd] at h
      | vFloat x => simp [svp, hd] at h
      | vPtr z obj => simp [svp, hd] at h
      | vOther t => simp [svp, hd] at h
    | cons r2 rs2 =>
      cases hd : derefOnce current with
      | vStruct fl =>
        simp only [svp, hd] at h
        cases hfind : findFieldByNameOrTag fl seg with
        | none =>
          simp only [hfind] at h
          cases SetRes_ok_inj _ _ _ _ h
          intro π f h1 _; exact h1
        | some fname =>
          simp only [hfind] at h
          cases hby : fieldByName fl fname with
          | none =>
            simp only [hby] at h
            cases SetRes_ok_inj _ _ _ _ h
            intro π f h1 _; exact h1
          | some p =>
            obtain ⟨i0, f0⟩ := p
            simp only [hby] at h
            by_cases he : f0.exported = false
            · simp only [if_pos he] at h
              exact absurd h (by simp)
            · simp only [if_neg he] at h
              have he2 : f0.exported = true := by
                revert he; cases f0.exported <;> simp
              obtain ⟨hfi, _⟩ := fieldByName_spec fl fname i0 f0 hby
              cases hv0 : f0.val with
              | vPtr z obj =>
                simp only [hv0] at h
                cases hsub : svp pf (.vPtr z (.some (obj.getD z)))
                    (r2 :: rs2) path value with
                | ok sub ds2 =>
                  simp only [hsub] at h
                  cases SetRes_ok_inj _ _ _ _ h
                  refine writeBack_unexp current fl i0 f0 sub hd hfi he2 ?_
                  intro π2 g hg hge
                  rw [hv0] at hg
                  cases obj with
                  | some u =>
                    exact ih (.vPtr z (.some u)) path value sub ds2 hsub π2 g
                      hg hge
                  | none =>
                    cases π2 with
                    | nil => simp [getField] at hg
                    | cons q qs => simp [getField, derefOnce] at hg
                | panicked ds2 m =>
                  simp only [hsub] at h
                  exact absurd h (by simp)
              | vStruct l =>
                simp only [hv0] at h
                cases hsub : svp pf (.vStruct l) (r2 :: rs2) path value with
                | ok sub ds2 =>
                  simp only [hsub] at h
                  cases SetRes_ok_inj _ _ _ _ h
                  refine writeBack_unexp current fl i0 f0 sub hd hfi he2 ?_
                  intro π2 g hg hge
                  rw [hv0] at hg
                  exact ih (.vStruct l) path value sub ds2 hsub π2 g hg hge
                | panicked ds2 m =>
                  simp only [hsub] at h
                  exact absurd h (by simp)
              | vStr s0 =>
                simp only [hv0] at h
                cases SetRes_ok_inj _ _ _ _ h
                intro π f h1 _; exact h1
              | vInt k =>
                simp only [hv0] at h
                cases SetRes_ok_inj _ _ _ _ h
                intro π f h1 _; exact h1
              | vBool b =>
                simp only [hv0] at h
                cases SetRes_ok_inj _ _ _ _ h
                intro π f h1 _; exact h1
              | vFloat x =>
                simp only [hv0] at h
                cases SetRes_ok_inj _ _ _ _ h
                intro π f h1 _; exact h1
              | vOther t =>
                simp only [hv0] at h
                cases SetRes_ok_inj _ _ _ _ h
                intro π f h1 _; exact h1
      | vStr s0 =>
        simp only [svp, hd] at h
        cases SetRes_ok_inj _ _ _ _ h
        intro π f h1 _; exact h1
      | vInt k =>
        simp only [svp, hd] at h
        cases SetRes_ok_inj _ _ _ _ h
        intro π f h1 _; exact h1
      | vBool b =>
        simp only [svp, hd] at h
        cases SetRes_ok_inj _ _ _ _ h
        intro π f h1 _; exact h1
      | vFloat x =>
        simp only [svp, hd] at h
        cases SetRes_ok_inj _ _ _ _ h
        intro π f h1 _; exact h1
      | vPtr z obj =>
        simp only [svp, hd] at h
        cases SetRes_ok_inj _ _ _ _ h
        intro π f h1 _; exact h1
      | vOther t =>
        simp only [svp, hd] at h
        cases SetRes_ok_inj _ _ _ _ h
        intro π f h1 _; exact h1

theorem NewRes_ok_inj (a b : Value) (d1 d2 : List Diag)
    (h : NewRes.ok a d1 = NewRes.ok b d2) : a = b := by
  cases h; rfl

theorem foldl_panicked (env : Env) (pf : String → Option GoFloat) :
    ∀ (pairs : List String) (ds : List Diag) (m : String),
      List.foldl (fromEnvStep env pf) (.panicked ds m) pairs =
        .panicked ds m := by
  intro pairs
  induction pairs with
  | nil => intro ds m; rfl
  | cons p ps ih =>
    intro ds m
    simp only [List.foldl, fromEnvStep]
    exact ih ds m

theorem runFromEnv_unexp (env : Env) (pf : String → Option GoFloat) :
    ∀ (pairs : List String) (v : Value) (ds0 : List Diag) (v2 : Value)
      (ds2 : List Diag),
      List.foldl (fromEnvStep env pf) (.ok v ds0) pairs = .ok v2 ds2 →
      ∀ (π : List Nat) (f : Field), getField v π = some f →
        f.exported = false → getField v2 π = some f := by
  intro pairs
  induction pairs with
  | nil =>
    intro v ds0 v2 ds2 h
    simp only [List.foldl] at h
    cases SetRes_ok_inj _ _ _ _ h
    intro π f h1 _; exact h1
  | cons p ps ih =>
    intro v ds0 v2 ds2 h
    simp only [List.foldl] at h
    by_cases hlen : (splitN2 p).length ≠ 2
    · have hstep : fromEnvStep env pf (.ok v ds0) p =
          .ok v (ds0 ++ [.invalidFromEnvFormat p]) := by
        simp only [fromEnvStep]
        rw [if_pos hlen]
      rw [hstep] at h
      exact ih v _ v2 ds2 h
    · by_cases hempty : env (strTrim ((splitN2 p).getD 1 "")) = ""
      · have hstep : fromEnvStep env pf (.ok v ds0) p =
            .ok v (ds0 ++ [.envVarNotSet (strTrim ((splitN2 p).getD 1 ""))]) := by
          simp only [fromEnvStep]
          rw [if_neg hlen, if_pos hempty]
        rw [hstep] at h
        exact ih v _ v2 ds2 h
      · have hstep : fromEnvStep env pf (.ok v ds0) p =
            (match setValueByPath pf v (strTrim ((splitN2 p).headD ""))
                (env (strTrim ((splitN2 p).getD 1 ""))) with
             | .ok vv dd => .ok vv (ds0 ++ dd)
             | .panicked dd m => .panicked (ds0 ++ dd) m) := by
          simp only [fromEnvStep]
          rw [if_neg hlen, if_neg hempty]
        cases hsv : setValueByPath pf v (strTrim ((splitN2 p).headD ""))
            (env (strTrim ((splitN2 p).getD 1 ""))) with
        | ok vmid dmid =>
          rw [hstep] at h
          simp only [hsv] at h
          intro π f h1 h2
          have hmid := svp_unexp pf
            (splitDot (strTrim ((splitN2 p).headD ""))) v
            (strTrim ((splitN2 p).headD ""))
            (env (strTrim ((splitN2 p).getD 1 ""))) vmid dmid
            (by
              have hsv2 := hsv
              simp only [setValueByPath] at hsv2
              exact hsv2) π f h1 h2
          exact ih vmid _ v2 ds2 h π f hmid h2
        | panicked dmid m =>
          rw [hstep] at h
          simp only [hsv] at h
          rw [foldl_panicked] at h
          exact absurd h (by simp)

theorem applyFO_unexp (P : Parsed) (env : Env) (pf : String → Option GoFloat)
    (vin vout : Value) (ds : List Diag)
    (h : applyFlagOverridesRoot P env pf vin = .ok vout ds) :
    ∀ (π : List Nat) (f : Field), getField vin π = some f →
      f.exported = false → getField vout π = some f := by
  intro π f h1 h2
  unfold applyFlagOverridesRoot at h
  by_cases hfe : P.fromEnvChanged = true
  · rw [if_pos hfe] at h
    cases hrun : runFromEnv env pf vin P.fromEnv with
    | ok v1 d1 =>
      simp only [hrun] at h
      cases SetRes_ok_inj _ _ _ _ h
      have hmid := runFromEnv_unexp env pf P.fromEnv vin [] v1 d1
        (by
          have hrun2 := hrun
          simp only [runFromEnv] at hrun2
          exact hrun2) π f h1 h2
      exact walk_unexp P env π "" v1 f hmid h2
    | panicked d1 m =>
      simp only [hrun] at h
      exact absurd h (by simp)
  · rw [if_neg hfe] at h
    have h : SetRes.ok (walkValue P env "" vin) [] = .ok vout ds := h
    cases SetRes_ok_inj _ _ _ _ h
    exact walk_unexp P env π "" vin f h1 h2

theorem New_unexp (cfg : Value) (parse : FlagSet → Except String Parsed)
    (readFile : String → Except String String)
    (unmarshal : String → Value → Except String Value) (env : Env)
    (pf : String → Option GoFloat) (v : Value) (ds : List Diag)
    (hum : ∀ (doc : String) (vIn vOut : Value), unmarshal doc vIn = .ok vOut →
      ∀ (π : List Nat) (f : Field), getField vIn π = some f →
        f.exported = false → getField vOut π = some f)
    (h : NewModel cfg parse readFile unmarshal env pf = .ok v ds) :
    ∀ (π : List Nat) (f : Field), getField cfg π = some f →
      f.exported = false → getField v π = some f := by
  intro π f h1 h2
  unfold NewModel at h
  cases hrv : regValue "" cfg [] with
  | mk cfg1 fs =>
    rw [hrv] at h
    have hp1 : getField cfg1 π = some f := by
      have := reg_unexp π "" cfg [] f h1 h2
      rw [hrv] at this
      exact this
    cases hp : parse fs with
    | error e =>
      simp only [hp] at h
      exact absurd h (by simp)
    | ok P =>
      simp only [hp] at h
      by_cases hc : P.configFile ≠ ""
      · rw [if_pos hc] at h
        cases hr : readFile P.configFile with
        | error e =>
          simp only [hr] at h
          exact absurd h (by simp)
        | ok doc =>
          simp only [hr] at h
          cases hu : unmarshal doc cfg1 with
          | error e =>
            simp only [hu] at h
            exact absurd h (by simp)
          | ok cfg2 =>
            simp only [hu] at h
            cases hap : applyFlagOverridesRoot P env pf cfg2 with
            | ok vr dsr =>
              simp only [hap] at h
              cases NewRes_ok_inj _ _ _ _ h
              exact applyFO_unexp P env pf cfg2 v dsr hap π f
                (hum doc cfg1 cfg2 hu π f hp1 h2) h2
            | panicked dsr m =>
              simp only [hap] at h
              exact absurd h (by simp)
      · rw [if_neg hc] at h
        cases hap : applyFlagOverridesRoot P env pf cfg1 with
        | ok vr dsr =>
          simp only [hap] at h
          cases NewRes_ok_inj _ _ _ _ h
          exact applyFO_unexp P env pf cfg1 v dsr hap π f hp1 h2
        | panicked dsr m =>
          simp only [hap] at h
          exact absurd h (by simp)

theorem findFieldAux_exported :
    ∀ (fl : List Field) (nl fn : String), findFieldAux nl fl = some fn →
      ∃ (i : Nat) (f : Field), fl[i]? = some f ∧ f.exported = true ∧
        f.fname = fn := by
  intro fl
  induction fl with
  | nil => intro nl fn h; simp [findFieldAux] at h
  | cons g rest ih =>
    intro nl fn h
    unfold findFieldAux at h
    by_cases hge : g.exported = false
    · rw [if_pos hge] at h
      obtain ⟨i, f, hfi, hfe, hfn⟩ := ih nl fn h
      exact ⟨i + 1, f, by simpa using hfi, hfe, hfn⟩
    · have hge2 : g.exported = true := by
        revert hge; cases g.exported <;> simp
      rw [if_neg hge] at h
      by_cases h1 : strToLower g.fname = nl
      · rw [if_pos h1] at h
        exact ⟨0, g, by simp, hge2, Option.some.inj h⟩
      · rw [if_neg h1] at h
        by_cases h2 : g.yamlTag ≠ "" ∧ strToLower (commaHead g.yamlTag) = nl
        · rw [if_pos h2] at h
          exact ⟨0, g, by simp, hge2, Option.some.inj h⟩
        · rw [if_neg h2] at h
          by_cases h3 : g.jsonTag ≠ "" ∧ strToLower (commaHead g.jsonTag) = nl
          · rw [if_pos h3] at h
            exact ⟨0, g, by simp, hge2, Option.some.inj h⟩
          · rw [if_neg h3] at h
            obtain ⟨i, f, hfi, hfe, hfn⟩ := ih nl fn h
            exact ⟨i + 1, f, by simpa using hfi, hfe, hfn⟩

/-- **C9**: unexported fields are inert through the whole resolution.
(1) Flag registration skips an unexported field entirely: it registers no
flag for it or anything beneath it and leaves the field (subtree included)
untouched.  (2) Segment resolution only ever returns an exported field,
even when the segment matches an unexported field's name.  (3) The
flag-override walk passes an unexported field through unchanged.  (4) A
completed `setValueByPath` leaves every unexported field identical.
(5) A completed `New`, with a decode step that preserves unexported fields
(Go's yaml decoder cannot set them), returns an object whose every
unexported field is identical to the one in the input object. -/
theorem unexported_fields_untouched :
    (∀ (pfx : String) (fs : FlagSet) (n y j : String) (v : Value)
      (rest : List Field),
      (regFields pfx (.mk n y j false v :: rest) fs).1 =
        .mk n y j false v :: (regFields pfx rest fs).1 ∧
      (regFields pfx (.mk n y j false v :: rest) fs).2 =
        (regFields pfx rest fs).2) ∧
    (∀ (fl : List Field) (seg fname : String),
      findFieldByNameOrTag fl seg = some fname →
      ∃ (i : Nat) (f : Field), fl[i]? = some f ∧ f.exported = true ∧
        f.fname = fname) ∧
    (∀ (P : Parsed) (env : Env) (pfx n y j : String) (v : Value)
      (rest : List Field),
      walkFields P env pfx (.mk n y j false v :: rest) =
        .mk n y j false v :: walkFields P env pfx rest) ∧
    (∀ (pf : String → Option GoFloat) (segs : List String) (current : Value)
      (path value : String) (v2 : Value) (ds : List Diag),
      svp pf current segs path value = .ok v2 ds →
      ∀ (π : List Nat) (f : Field), getField current π = some f →
        f.exported = false → getField v2 π = some f) ∧
    (∀ (cfg : Value) (parse : FlagSet → Except String Parsed)
      (readFile : String → Except String String)
      (unmarshal : String → Value → Except String Value) (env : Env)
      (pf : String → Option GoFloat) (v : Value) (ds : List Diag),
      (∀ (doc : String) (vIn vOut : Value), unmarshal doc vIn = .ok vOut →
        ∀ (π : List Nat) (f : Field), getField vIn π = some f →
          f.exported = false → getField vOut π = some f) →
      NewModel cfg parse readFile unmarshal env pf = .ok v ds →
      ∀ (π : List Nat) (f : Field), getField cfg π = some f →
        f.exported = false → getField v π = some f) := by
  refine ⟨?_, ?_, ?_, svp_unexp, New_unexp⟩
  · intro pfx fs n y j v rest
    cases hre : regFields pfx rest fs with
    | mk rest2 fs2 => simp [regFields, hre]
  · intro fl seg fname h
    exact findFieldAux_exported fl (strToLower seg) fname h
  · intro P env pfx n y j v rest
    simp [walkFields]

theorem NewModel_no_flags (fl : List Field)
    (parse : FlagSet → Except String Parsed)
    (readFile : String → Except String String)
    (unmarshal : String → Value → Except String Value) (env : Env)
    (pf : String → Option GoFloat) (P : Parsed)
    (hp : parse (regValue "" (.vStruct fl) []).2 = .ok P)
    (hc : P.configFile = "") (hfe : P.fromEnvChanged = false)
    (hch : ∀ n, P.changed n = false) :
    NewModel (.vStruct fl) parse readFile unmarshal env pf =
      .ok (.vStruct (regFields "" fl []).1) [] := by
  unfold NewModel
  cases hre : regFields "" fl [] with
  | mk fl2 fs2 =>
    have hrv : regValue "" (.vStruct fl) [] = (.vStruct fl2, fs2) := by
      simp [regValue, hre]
    rw [hrv] at hp
    rw [hrv]
    simp only [hp, hc]
    rw [if_neg (by simp)]
    unfold applyFlagOverridesRoot
    rw [if_neg (by simp [hfe])]
    simp [walkValue_id P env hch]

/-- **C8**: optional pointer-to-struct fields are allocated at most once,
and only when nil.  (1) Flag registration allocates only nil pointers: on
a shape with no nil optional field it returns the field list unchanged.
(2) The flag-override walk never allocates: a nil pointer field passes
through untouched.  (3) Path navigation descending into a non-nil pointer
field reuses the existing pointee — the nil guard prevents re-allocation.
(4) Descending into a nil pointer field allocates the zero structure
before recursing.  (5) Across a whole `New` run whose decode oracle keeps
non-nil pointers non-nil, every non-nil pointer of the input object stays
non-nil with the same element type, so a pointee installed by the file
decode or an earlier phase is never discarded for a fresh allocation. -/

theorem unexported_fields_untouched_witness :
    ((regFields "x" [Field.mk "secret" "" "" false (.vStr "s")] []).1 =
        [Field.mk "secret" "" "" false (.vStr "s")] ∧
      (regFields "x" [Field.mk "secret" "" "" false (.vStr "s")] []).2 = []) ∧
    (findFieldByNameOrTag
        [Field.mk "secret" "" "" false (.vStr "s"),
         Field.mk "Secret" "" "" true (.vStr "t")] "secret" = some "Secret" ∧
      (∃ (i : Nat) (f : Field), [Field.mk "secret" "" "" false (.vStr "s"),
          Field.mk "Secret" "" "" true (.vStr "t")][i]? = some f ∧
        f.exported = true ∧ f.fname = "Secret")) ∧
    (∃ v2 ds, svp (fun _ => none) cfgC9 ["host"] "host" "h" = .ok v2 ds ∧
      getField v2 [0] = some (Field.mk "secret" "" "" false (.vStr "s"))) ∧
    (NewModel cfgC9 (fun _ => .ok parsedC10) (fun _ => .ok "")
        (fun _ vIn => .ok vIn) envEmpty (fun _ => none) = .ok cfgC9 [] ∧
      getField cfgC9 [0] = some (Field.mk "secret" "" "" false (.vStr "s"))) := by
  have humId : ∀ (doc : String) (vIn vOut : Value),
      (fun (_ : String) (vIn : Value) =>
        (Except.ok vIn : Except String Value)) doc vIn = .ok vOut →
      ∀ (π : List Nat) (f : Field), getField vIn π = some f →
        f.exported = false → getField vOut π = some f := by
    intro doc vIn vOut h π f h1 h2
    cases Except.ok.inj h
    exact h1
  have h1 : (regFields "" [Field.mk "secret" "" "" false (.vStr "s"),
      Field.mk "Host" "host" "" true (.vStr "")] []).1 =
      [Field.mk "secret" "" "" false (.vStr "s"),
       Field.mk "Host" "host" "" true (.vStr "")] := by
    simp [regFields, joinName, extName, commaHead]
  have hnew : NewModel cfgC9 (fun _ => .ok parsedC10) (fun _ => .ok "")
      (fun _ vIn => .ok vIn) envEmpty (fun _ => none) = .ok cfgC9 [] := by
    have h2 := NewModel_no_flags
      [Field.mk "secret" "" "" false (.vStr "s"),
       Field.mk "Host" "host" "" true (.vStr "")]
      (fun _ => .ok parsedC10) (fun _ => .ok "") (fun _ vIn => .ok vIn)
      envEmpty (fun _ => none) parsedC10 rfl rfl rfl (fun _ => rfl)
    rw [h1] at h2
    exact h2
  refine ⟨?_, ⟨rfl, ?_⟩, ?_, ⟨hnew, ?_⟩⟩
  · have h := unexported_fields_untouched.1 "x" [] "secret" "" "" (.vStr "s") []
    simpa only [regFields] using h
  · exact unexported_fields_untouched.2.1
      [Field.mk "secret" "" "" false (.vStr "s"),
       Field.mk "Secret" "" "" true (.vStr "t")] "secret" "Secret" rfl
  · refine ⟨.vStruct [Field.mk "secret" "" "" false (.vStr "s"),
      Field.mk "Host" "host" "" true (.vStr "h")], [], rfl, ?_⟩
    exact unexported_fields_untouched.2.2.2.1 (fun _ => none) ["host"] cfgC9
      "host" "h" _ [] rfl [0]
      (Field.mk "secret" "" "" false (.vStr "s")) rfl rfl
  · exact unexported_fields_untouched.2.2.2.2 cfgC9 (fun _ => .ok parsedC10)
      (fun _ => .ok "") (fun _ vIn => .ok vIn) envEmpty (fun _ => none)
      cfgC9 [] humId hnew [0]
      (Field.mk "secret" "" "" false (.vStr "s")) rfl rfl

theorem getVal_ptrStruct (z : Value) (fl : List Field) (i : Nat)
    (r : List Nat) :
    getVal (.vPtr z (.some (.vStruct fl))) (i :: r) =
      getVal (.vStruct fl) (i :: r) := rfl

theorem reg_ptr :
    ∀ (π : List Nat) (pfx : String) (v : Value) (fs : FlagSet) (z u : Value),
      getVal v π = some (.vPtr z (.some u)) →
      ∃ u2, getVal (regValue pfx v fs).1 π = some (.vPtr z (.some u2)) := by
  intro π
  induction π with
  | nil =>
    intro pfx v fs z u h1
    simp only [getVal, Option.some.injEq] at h1
    subst h1
    cases u with
    | vStruct l =>
      refine ⟨.vStruct (regFields pfx l fs).1, ?_⟩
      cases hre : regFields pfx l fs with
      | mk a b => simp [regValue, hre, getVal]
    | vStr s0 => exact ⟨.vStr s0, rfl⟩
    | vInt k => exact ⟨.vInt k, rfl⟩
    | vBool b => exact ⟨.vBool b, rfl⟩
    | vFloat x => exact ⟨.vFloat x, rfl⟩
    | vPtr z2 o2 => exact ⟨.vPtr z2 o2, rfl⟩
    | vOther t => exact ⟨.vOther t, rfl⟩
  | cons i rest ih =>
    intro pfx v fs z u h1
    cases hd : derefOnce v with
    | vStruct fl =>
      simp only [getVal, hd] at h1
      cases hf : fl[i]? with
      | none => simp [hf] at h1
      | some g =>
        simp only [hf] at h1
        have hderef := regValue_deref pfx v fs fl hd
        simp only [getVal, hderef, regFields_fst_map, List.getElem?_map, hf,
          Option.map]
        cases rest with
        | nil =>
          have h1 : some g.val = some (Value.vPtr z (.some u)) := h1
          have hgv := Option.some.inj h1
          by_cases hge : g.exported = false
          · refine ⟨u, ?_⟩
            simp only [regFieldOne, hge, if_pos rfl]
            simpa [getVal] using h1
          · have hge2 : g.exported = true := by
              revert hge; cases g.exported <;> simp
            cases g with
            | mk n y j e v0 =>
              simp only [Field.exported_mk] at hge2
              subst hge2
              simp only [Field.val_mk] at hgv
              subst hgv
              simp only [regFieldOne, Field.exported_mk, Bool.true_eq_false,
                if_false, Field.withVal_mk, Field.fname_mk, Field.yamlTag_mk,
                Field.val_mk]
              cases u with
              | vStruct l =>
                exact ⟨.vStruct (regFields (joinName pfx (extName n y)) l []).1,
                  by simp [regFieldVal, getVal]⟩
              | vStr s0 => exact ⟨.vStr s0, by simp [regFieldVal, getVal]⟩
              | vInt k => exact ⟨.vInt k, by simp [regFieldVal, getVal]⟩
              | vBool b => exact ⟨.vBool b, by simp [regFieldVal, getVal]⟩
              | vFloat x => exact ⟨.vFloat x, by simp [regFieldVal, getVal]⟩
              | vPtr z3 o3 => exact ⟨.vPtr z3 o3, by simp [regFieldVal, getVal]⟩
              | vOther t => exact ⟨.vOther t, by simp [regFieldVal, getVal]⟩
        | cons r rs =>
          have h1 : getVal g.val (r :: rs) = some (Value.vPtr z (.some u)) := h1
          by_cases hge : g.exported = false
          · refine ⟨u, ?_⟩
            simp only [regFieldOne, hge, if_pos rfl]
            exact h1
          · have hge2 : g.exported = true := by
              revert hge; cases g.exported <;> simp
            cases g with
            | mk n y j e v0 =>
              simp only [Field.exported_mk] at hge2
              subst hge2
              simp only [Field.val_mk] at h1
              simp only [regFieldOne, Field.exported_mk, Bool.true_eq_false,
                if_false, Field.withVal_mk, Field.fname_mk, Field.yamlTag_mk,
                Field.val_mk]
              cases v0 with
              | vStruct l =>
                have hrec := ih (joinName pfx (extName n y)) (.vStruct l) []
                  z u h1
                rw [regValue_fst_struct] at hrec
                simpa [regFieldVal] using hrec
              | vPtr z2 obj =>
                cases obj with
                | none => simp [getVal, derefOnce] at h1
                | some u2 =>
                  cases u2 with
                  | vStruct l =>
                    rw [getVal_ptrStruct] at h1
                    have hrec := ih (joinName pfx (extName n y)) (.vStruct l)
                      [] z u h1
                    rw [regValue_fst_struct] at hrec
                    obtain ⟨u3, hu3⟩ := hrec
                    exact ⟨u3, by
                      simpa [regFieldVal, getVal_ptrStruct] using hu3⟩
                  | vStr s0 => simp [getVal, derefOnce] at h1
                  | vInt k => simp [getVal, derefOnce] at h1
                  | vBool b => simp [getVal, derefOnce] at h1
                  | vFloat x => simp [getVal, derefOnce] at h1
                  | vPtr z3 o3 => simp [getVal, derefOnce] at h1
                  | vOther t => simp [getVal, derefOnce] at h1
              | vStr s0 => simp [getVal, derefOnce] at h1
              | vInt k => simp [getVal, derefOnce] at h1
              | vBool b => simp [getVal, derefOnce] at h1
              | vFloat x => simp [getVal, derefOnce] at h1
              | vOther t => simp [getVal, derefOnce] at h1
    | vStr s0 => simp [getVal, hd] at h1
    | vInt k => simp [getVal, hd] at h1
    | vBool b => simp [getVal, hd] at h1
    | vFloat x => simp [getVal, hd] at h1
    | vPtr z2 obj => simp [getVal, hd] at h1
    | vOther t => simp [getVal, hd] at h1

theorem regFields_id :
    ∀ (pfx : String) (fl : List Field) (fs : FlagSet),
      noNilFields fl = true → (regFields pfx fl fs).1 = fl := by
  intro pfx fl fs
  induction pfx, fl, fs using regFields.induct <;>
    simp_all [regFields, noNilFields, noNilFields_unexp]

theorem walk_ptr (P : Parsed) (env : Env) :
    ∀ (π : List Nat) (pfx : String) (v : Value) (z u : Value),
      getVal v π = some (.vPtr z (.some u)) →
      ∃ u2, getVal (walkValue P env pfx v) π = some (.vPtr z (.some u2)) := by
  intro π
  induction π with
  | nil =>
    intro pfx v z u h1
    simp only [getVal, Option.some.injEq] at h1
    subst h1
    cases u with
    | vStruct l => exact ⟨.vStruct (walkFields P env pfx l), rfl⟩
    | vStr s0 => exact ⟨.vStr s0, rfl⟩
    | vInt k => exact ⟨.vInt k, rfl⟩
    | vBool b => exact ⟨.vBool b, rfl⟩
    | vFloat x => exact ⟨.vFloat x, rfl⟩
    | vPtr z2 o2 => exact ⟨.vPtr z2 o2, rfl⟩
    | vOther t => exact ⟨.vOther t, rfl⟩
  | cons i rest ih =>
    intro pfx v z u h1
    cases hd : derefOnce v with
    | vStruct fl =>
      simp only [getVal, hd] at h1
      cases hf : fl[i]? with
      | none => simp [hf] at h1
      | some g =>
        simp only [hf] at h1
        have hderef := walkValue_deref P env pfx v fl hd
        simp only [getVal, hderef, walkFields_eq_map, List.getElem?_map, hf,
          Option.map]
        cases rest with
        | nil =>
          have h1 : some g.val = some (Value.vPtr z (.some u)) := h1
          have hgv := Option.some.inj h1
          cases g with
          | mk n y j e v0 =>
            simp only [Field.val_mk] at hgv
            subst hgv
            cases e with
            | false => exact ⟨u, by simp [walkFieldOne, getVal]⟩
            | true =>
              cases u with
              | vStruct l =>
                exact ⟨.vStruct (walkFields P env (joinName pfx (extName n y)) l),
                  by simp [walkFieldOne, getVal]⟩
              | vStr s0 => exact ⟨.vStr s0, by simp [walkFieldOne, getVal]⟩
              | vInt k => exact ⟨.vInt k, by simp [walkFieldOne, getVal]⟩
              | vBool b => exact ⟨.vBool b, by simp [walkFieldOne, getVal]⟩
              | vFloat x => exact ⟨.vFloat x, by simp [walkFieldOne, getVal]⟩
              | vPtr z3 o3 => exact ⟨.vPtr z3 o3, by simp [walkFieldOne, getVal]⟩
              | vOther t => exact ⟨.vOther t, by simp [walkFieldOne, getVal]⟩
        | cons r rs =>
          have h1 : getVal g.val (r :: rs) = some (.vPtr z (.some u)) := h1
          cases g with
          | mk n y j e v0 =>
            simp only [Field.val_mk] at h1
            cases e with
            | false => exact ⟨u, by simpa [walkFieldOne, getVal] using h1⟩
            | true =>
              simp only [walkFieldOne, Bool.true_eq_false, if_false,
                Field.val_mk]
              cases v0 with
              | vStruct l =>
                have hrec := ih (joinName pfx (extName n y)) (.vStruct l) z u h1
                simpa [walkValue] using hrec
              | vPtr z2 obj =>
                cases obj with
                | none => simp [getVal, derefOnce] at h1
                | some u2 =>
                  cases u2 with
                  | vStruct l =>
                    have h1 : getVal (Value.vStruct l) (r :: rs) =
                        some (.vPtr z (.some u)) := h1
                    have hrec := ih (joinName pfx (extName n y)) (.vStruct l)
                      z u h1
                    obtain ⟨u3, hu3⟩ := hrec
                    exact ⟨u3, by
                      simpa [walkValue, getVal_ptrStruct] using hu3⟩
                  | vStr s0 => simp [getVal, derefOnce] at h1
                  | vInt k => simp [getVal, derefOnce] at h1
                  | vBool b => simp [getVal, derefOnce] at h1
                  | vFloat x => simp [getVal, derefOnce] at h1
                  | vPtr z3 o3 => simp [getVal, derefOnce] at h1
                  | vOther t => simp [getVal, derefOnce] at h1
              | vStr s0 => simp [getVal, derefOnce] at h1
              | vInt k => simp [getVal, derefOnce] at h1
              | vBool b => simp [getVal, derefOnce] at h1
              | vFloat x => simp [getVal, derefOnce] at h1
              | vOther t => simp [getVal, derefOnce] at h1
    | vStr s0 => simp [getVal, hd] at h1
    | vInt k => simp [getVal, hd] at h1
    | vBool b => simp [getVal, hd] at h1
    | vFloat x => simp [getVal, hd] at h1
    | vPtr z2 obj => simp [getVal, hd] at h1
    | vOther t => simp [getVal, hd] at h1

theorem writeBack_ptr (current : Value) (fl : List Field) (i0 : Nat)
    (f0 : Field) (w : Value) (hd : derefOnce current = .vStruct fl)
    (hfi : fl[i0]? = some f0)
    (hsub : ∀ (π : List Nat) (z u : Value),
      getVal f0.val π = some (.vPtr z (.some u)) →
      ∃ u2, getVal w π = some (.vPtr z (.some u2))) :
    ∀ (π : List Nat) (z u : Value),
      getVal current π = some (.vPtr z (.some u)) →
      ∃ u2, getVal (writeBack current fl i0 (f0.withVal w)) π =
        some (.vPtr z (.some u2)) := by
  intro π z u h1
  cases π with
  | nil =>
    simp only [getVal, Option.some.injEq] at h1
    subst h1
    simp only [derefOnce] at hd
    subst hd
    exact ⟨.vStruct (fl.set i0 (f0.withVal w)), by simp [writeBack, getVal]⟩
  | cons i restπ =>
    simp only [getVal, hd] at h1
    have hwb := writeBack_deref current fl i0 (f0.withVal w) hd
    simp only [getVal, hwb]
    by_cases hi : i = i0
    · subst hi
      have hlen : i < fl.length := getElem?_lt fl i f0 hfi
      simp only [hfi] at h1
      simp only [List.getElem?_set_eq_of_lt _ hlen]
      have h1 : getVal f0.val restπ = some (.vPtr z (.some u)) := h1
      have hres := hsub restπ z u h1
      simpa [Field.val_withVal] using hres
    · rw [List.getElem?_set_ne (fun hc => hi hc.symm)]
      exact ⟨u, h1⟩

theorem svp_ptr (pf : String → Option GoFloat) :
    ∀ (segs : List String) (current : Value) (path value : String)
      (v2 : Value) (ds : List Diag),
      svp pf current segs path value = .ok v2 ds →
      ∀ (π : List Nat) (z u : Value),
        getVal current π = some (.vPtr z (.some u)) →
        ∃ u2, getVal v2 π = some (.vPtr z (.some u2)) := by
  intro segs
  induction segs with
  | nil =>
    intro current path value v2 ds h
    simp only [svp] at h
    cases SetRes_ok_inj _ _ _ _ h
    intro π z u h1
    exact ⟨u, h1⟩
  | cons seg rest ih =>
    intro current path value v2 ds h
    cases rest with
    | nil =>
      cases hd : derefOnce current with
      | vStruct fl =>
        simp only [svp, hd] at h
        cases hfind : findFieldByNameOrTag fl seg with
        | none =>
          simp only [hfind] at h
          cases SetRes_ok_inj _ _ _ _ h
          intro π z u h1; exact ⟨u, h1⟩
        | some fname =>
          simp only [hfind] at h
          cases hby : fieldByName fl fname with
          | none =>
            simp only [hby] at h
            cases SetRes_ok_inj _ _ _ _ h
            intro π z u h1; exact ⟨u, h1⟩
          | some p =>
            obtain ⟨i0, f0⟩ := p
            simp only [hby] at h
            by_cases he : f0.exported = false
            · simp only [if_pos he] at h
              cases SetRes_ok_inj _ _ _ _ h
              intro π z u h1; exact ⟨u, h1⟩
            · simp only [if_neg he] at h
              obtain ⟨hfi, _⟩ := fieldByName_spec fl fname i0 f0 hby
              cases hv0 : f0.val with
              | vStr s0 =>
                simp only [hv0] at h
                cases SetRes_ok_inj _ _ _ _ h
                exact writeBack_ptr current fl i0 f0 (.vStr value) hd hfi
                  (fun π2 z u hg => by
                    rw [hv0] at hg
                    cases π2 <;> simp [getVal, derefOnce] at hg)
              | vInt k =>
                simp only [hv0] at h
                cases hpi : parseInt64 value with
                | none =>
                  simp only [hpi] at h
                  cases SetRes_ok_inj _ _ _ _ h
                  intro π z u h1; exact ⟨u, h1⟩
                | some k2 =>
                  simp only [hpi] at h
                  cases SetRes_ok_inj _ _ _ _ h
                  exact writeBack_ptr current fl i0 f0 (.vInt k2) hd hfi
                    (fun π2 z u hg => by
                      rw [hv0] at hg
                      cases π2 <;> simp [getVal, derefOnce] at hg)
              | vBool b =>
                simp only [hv0] at h
                cases hpb : parseBool value with
                | none =>
                  simp only [hpb] at h
                  cases SetRes_ok_inj _ _ _ _ h
                  intro π z u h1; exact ⟨u, h1⟩
                | some b2 =>
                  simp only [hpb] at h
                  cases SetRes_ok_inj _ _ _ _ h
                  exact writeBack_ptr current fl i0 f0 (.vBool b2) hd hfi
                    (fun π2 z u hg => by
                      rw [hv0] at hg
                      cases π2 <;> simp [getVal, derefOnce] at hg)
              | vFloat x =>
                simp only [hv0] at h
                cases hpf : pf value with
                | none =>
                  simp only [hpf] at h
                  cases SetRes_ok_inj _ _ _ _ h
                  intro π z u h1; exact ⟨u, h1⟩
                | some x2 =>
                  simp only [hpf] at h
                  cases SetRes_ok_inj _ _ _ _ h
                  exact writeBack_ptr current fl i0 f0 (.vFloat x2) hd hfi
                    (fun π2 z u hg => by
                      rw [hv0] at hg
                      cases π2 <;> simp [getVal, derefOnce] at hg)
              | vStruct l =>
                simp only [hv0] at h
                cases SetRes_ok_inj _ _ _ _ h
                intro π z u h1; exact ⟨u, h1⟩
              | vPtr z0 obj =>
                simp only [hv0] at h
                cases SetRes_ok_inj _ _ _ _ h
                intro π z u h1; exact ⟨u, h1⟩
              | vOther t =>
                simp only [hv0] at h
                cases SetRes_ok_inj _ _ _ _ h
                intro π z u h1; exact ⟨u, h1⟩
      | vStr s0 => simp [svp, hd] at h
      | vInt k => simp [svp, hd] at h
      | vBool b => simp [svp, hd] at h
      | vFloat x => simp [svp, hd] at h
      | vPtr z0 obj => simp [svp, hd] at h
      | vOther t => simp [svp, hd] at h
    | cons r2 rs2 =>
      cases hd : derefOnce current with
      | vStruct fl =>
        simp only [svp, hd] at h
        cases hfind : findFieldByNameOrTag fl seg with
        | none =>
          simp only [hfind] at h
          cases SetRes_ok_inj _ _ _ _ h
          intro π z u h1; exact ⟨u, h1⟩
        | some fname =>
          simp only [hfind] at h
          cases hby : fieldByName fl fname with
          | none =>
            simp only [hby] at h
            cases SetRes_ok_inj _ _ _ _ h
            intro π z u h1; exact ⟨u, h1⟩
          | some p =>
            obtain ⟨i0, f0⟩ := p
            simp only [hby] at h
            by_cases he : f0.exported = false
            · simp only [if_pos he] at h
              exact absurd h (by simp)
            · simp only [if_neg he] at h
              obtain ⟨hfi, _⟩ := fieldByName_spec fl fname i0 f0 hby
              cases hv0 : f0.val with
              | vPtr z0 obj =>
                simp only [hv0] at h
                cases hsub : svp pf (.vPtr z0 (.some (obj.getD z0)))
                    (r2 :: rs2) path value with
                | ok sub ds2 =>
                  simp only [hsub] at h
                  cases SetRes_ok_inj _ _ _ _ h
                  refine writeBack_ptr current fl i0 f0 sub hd hfi ?_
                  intro π2 z u hg
                  rw [hv0] at hg
                  cases obj with
                  | some u0 =>
                    exact ih (.vPtr z0 (.some u0)) path value sub ds2 hsub π2
                      z u hg
                  | none =>
                    cases π2 with
                    | nil => simp [getVal] at hg
                    | cons q qs => simp [getVal, derefOnce] at hg
                | panicked ds2 m =>
                  simp only [hsub] at h
                  exact absurd h (by simp)
              | vStruct l =>
                simp only [hv0] at h
                cases hsub : svp pf (.vStruct l) (r2 :: rs2) path value with
                | ok sub ds2 =>
                  simp only [hsub] at h
                  cases SetRes_ok_inj _ _ _ _ h
                  refine writeBack_ptr current fl i0 f0 sub hd hfi ?_
                  intro π2 z u hg
                  rw [hv0] at hg
                  exact ih (.vStruct l) path value sub ds2 hsub π2 z u hg
                | panicked ds2 m =>
                  simp only [hsub] at h
                  exact absurd h (by simp)
              | vStr s0 =>
                simp only [hv0] at h
                cases SetRes_ok_inj _ _ _ _ h
                intro π z u h1; exact ⟨u, h1⟩
              | vInt k =>
                simp only [hv0] at h
                cases SetRes_ok_inj _ _ _ _ h
                intro π z u h1; exact ⟨u, h1⟩
              | vBool b =>
                simp only [hv0] at h
                cases SetRes_ok_inj _ _ _ _ h
                intro π z u h1; exact ⟨u, h1⟩
              | vFloat x =>
                simp only [hv0] at h
                cases SetRes_ok_inj _ _ _ _ h
                intro π z u h1; exact ⟨u, h1⟩
              | vOther t =>
                simp only [hv0] at h
                cases SetRes_ok_inj _ _ _ _ h
                intro π z u h1; exact ⟨u, h1⟩
      | vStr s0 =>
        simp only [svp, hd] at h
        cases SetRes_ok_inj _ _ _ _ h
        intro π z u h1; exact ⟨u, h1⟩
      | vInt k =>
        simp only [svp, hd] at h
        cases SetRes_ok_inj _ _ _ _ h
        intro π z u h1; exact ⟨u, h1⟩
      | vBool b =>
        simp only [svp, hd] at h
        cases SetRes_ok_inj _ _ _ _ h
        intro π z u h1; exact ⟨u, h1⟩
      | vFloat x =>
        simp only [svp, hd] at h
        cases SetRes_ok_inj _ _ _ _ h
        intro π z u h1; exact ⟨u, h1⟩
      | vPtr z0 obj =>
        simp only [svp, hd] at h
        cases SetRes_ok_inj _ _ _ _ h
        intro π z u h1; exact ⟨u, h1⟩
      | vOther t =>
        simp only [svp, hd] at h
        cases SetRes_ok_inj _ _ _ _ h
        intro π z u h1; exact ⟨u, h1⟩

theorem runFromEnv_ptr (env : Env) (pf : String → Option GoFloat) :
    ∀ (pairs : List String) (v : Value) (ds0 : List Diag) (v2 : Value)
      (ds2 : List Diag),
      List.foldl (fromEnvStep env pf) (.ok v ds0) pairs = .ok v2 ds2 →
      ∀ (π : List Nat) (z u : Value),
        getVal v π = some (.vPtr z (.some u)) →
        ∃ u2, getVal v2 π = some (.vPtr z (.some u2)) := by
  intro pairs
  induction pairs with
  | nil =>
    intro v ds0 v2 ds2 h
    simp only [List.foldl] at h
    cases SetRes_ok_inj _ _ _ _ h
    intro π z u h1; exact ⟨u, h1⟩
  | cons p ps ih =>
    intro v ds0 v2 ds2 h
    simp only [List.foldl] at h
    by_cases hlen : (splitN2 p).length ≠ 2
    · have hstep : fromEnvStep env pf (.ok v ds0) p =
          .ok v (ds0 ++ [.invalidFromEnvFormat p]) := by
        simp only [fromEnvStep]
        rw [if_pos hlen]
      rw [hstep] at h
      exact ih v _ v2 ds2 h
    · by_cases hempty : env (strTrim ((splitN2 p).getD 1 "")) = ""
      · have hstep : fromEnvStep env pf (.ok v ds0) p =
            .ok v (ds0 ++ [.envVarNotSet (strTrim ((splitN2 p).getD 1 ""))]) := by
          simp only [fromEnvStep]
          rw [if_neg hlen, if_pos hempty]
        rw [hstep] at h
        exact ih v _ v2 ds2 h
      · have hstep : fromEnvStep env pf (.ok v ds0) p =
            (match setValueByPath pf v (strTrim ((splitN2 p).headD ""))
                (env (strTrim ((splitN2 p).getD 1 ""))) with
             | .ok vv dd => .ok vv (ds0 ++ dd)
             | .panicked dd m => .panicked (ds0 ++ dd) m) := by
          simp only [fromEnvStep]
          rw [if_neg hlen, if_neg hempty]
        cases hsv : setValueByPath pf v (strTrim ((splitN2 p).headD ""))
            (env (strTrim ((splitN2 p).getD 1 ""))) with
        | ok vmid dmid =>
          rw [hstep] at h
          simp only [hsv] at h
          intro π z u h1
          have hmid := svp_ptr pf
            (splitDot (strTrim ((splitN2 p).headD ""))) v
            (strTrim ((splitN2 p).headD ""))
            (env (strTrim ((splitN2 p).getD 1 ""))) vmid dmid
            (by
              have hsv2 := hsv
              simp only [setValueByPath] at hsv2
              exact hsv2) π z u h1
          obtain ⟨u2, hu2⟩ := hmid
          exact ih vmid _ v2 ds2 h π z u2 hu2
        | panicked dmid m =>
          rw [hstep] at h
          simp only [hsv] at h
          rw [foldl_panicked] at h
          exact absurd h (by simp)

theorem applyFO_ptr (P : Parsed) (env : Env) (pf : String → Option GoFloat)
    (vin vout : Value) (ds : List Diag)
    (h : applyFlagOverridesRoot P env pf vin = .ok vout ds) :
    ∀ (π : List Nat) (z u : Value),
      getVal vin π = some (.vPtr z (.some u)) →
      ∃ u2, getVal vout π = some (.vPtr z (.some u2)) := by
  intro π z u h1
  unfold applyFlagOverridesRoot at h
  by_cases hfe : P.fromEnvChanged = true
  · rw [if_pos hfe] at h
    cases hrun : runFromEnv env pf vin P.fromEnv with
    | ok v1 d1 =>
      simp only [hrun] at h
      cases SetRes_ok_inj _ _ _ _ h
      have hmid := runFromEnv_ptr env pf P.fromEnv vin [] v1 d1
        (by
          have hrun2 := hrun
          simp only [runFromEnv] at hrun2
          exact hrun2) π z u h1
      obtain ⟨u2, hu2⟩ := hmid
      exact walk_ptr P env π "" v1 z u2 hu2
    | panicked d1 m =>
      simp only [hrun] at h
      exact absurd h (by simp)
  · rw [if_neg hfe] at h
    have h : SetRes.ok (walkValue P env "" vin) [] = .ok vout ds := h
    cases SetRes_ok_inj _ _ _ _ h
    exact walk_ptr P env π "" vin z u h1

theorem New_ptr (cfg : Value) (parse : FlagSet → Except String Parsed)
    (readFile : String → Except String String)
    (unmarshal : String → Value → Except String Value) (env : Env)
    (pf : String → Option GoFloat) (v : Value) (ds : List Diag)
    (hum : ∀ (doc : String) (vIn vOut : Value), unmarshal doc vIn = .ok vOut →
      ∀ (π : List Nat) (z u : Value),
        getVal vIn π = some (.vPtr z (.some u)) →
        ∃ u2, getVal vOut π = some (.vPtr z (.some u2)))
    (h : NewModel cfg parse readFile unmarshal env pf = .ok v ds) :
    ∀ (π : List Nat) (z u : Value),
      getVal cfg π = some (.vPtr z (.some u)) →
      ∃ u2, getVal v π = some (.vPtr z (.some u2)) := by
  intro π z u h1
  unfold NewModel at h
  cases hrv : regValue "" cfg [] with
  | mk cfg1 fs =>
    rw [hrv] at h
    have hp1 : ∃ u2, getVal cfg1 π = some (.vPtr z (.some u2)) := by
      have := reg_ptr π "" cfg [] z u h1
      rw [hrv] at this
      exact this
    obtain ⟨u1, hu1⟩ := hp1
    cases hp : parse fs with
    | error e =>
      simp only [hp] at h
      exact absurd h (by simp)
    | ok P =>
      simp only [hp] at h
      by_cases hc : P.configFile ≠ ""
      · rw [if_pos hc] at h
        cases hr : readFile P.configFile with
        | error e =>
          simp only [hr] at h
          exact absurd h (by simp)
        | ok doc =>
          simp only [hr] at h
          cases hu : unmarshal doc cfg1 with
          | error e =>
            simp only [hu] at h
            exact absurd h (by simp)
          | ok cfg2 =>
            simp only [hu] at h
            cases hap : applyFlagOverridesRoot P env pf cfg2 with
            | ok vr dsr =>
              simp only [hap] at h
              cases NewRes_ok_inj _ _ _ _ h
              obtain ⟨u3, hu3⟩ := hum doc cfg1 cfg2 hu π z u1 hu1
              exact applyFO_ptr P env pf cfg2 v dsr hap π z u3 hu3
            | panicked dsr m =>
              simp only [hap] at h
              exact absurd h (by simp)
      · rw [if_neg hc] at h
        cases hap : applyFlagOverridesRoot P env pf cfg1 with
        | ok vr dsr =>
          simp only [hap] at h
          cases NewRes_ok_inj _ _ _ _ h
          exact applyFO_ptr P env pf cfg1 v dsr hap π z u1 hu1
        | panicked dsr m =>
          simp only [hap] at h
          exact absurd h (by simp)

theorem svp_nav (pf : String → Option GoFloat) (current : Value)
    (fl : List Field) (seg r2 : String) (rs2 : List String)
    (path value fname : String) (i0 : Nat) (f0 : Field) (z0 : Value)
    (obj : Option Value) (hd : derefOnce current = .vStruct fl)
    (hfind : findFieldByNameOrTag fl seg = some fname)
    (hby : fieldByName fl fname = some (i0, f0)) (he : f0.exported = true)
    (hv : f0.val = .vPtr z0 obj) :
    svp pf current (seg :: r2 :: rs2) path value =
      match svp pf (.vPtr z0 (.some (obj.getD z0))) (r2 :: rs2) path value with
      | .ok p2 ds => .ok (writeBack current fl i0 (f0.withVal p2)) ds
      | .panicked ds m => .panicked ds m := by
  simp only [svp, hd, hfind, hby, he, hv, Bool.true_eq_false, if_false]

theorem pointer_allocated_once :
    (∀ (pfx : String) (fl : List Field) (fs : FlagSet),
      noNilFields fl = true → (regFields pfx fl fs).1 = fl) ∧
    (∀ (P : Parsed) (env : Env) (pfx n y j : String) (e : Bool) (z : Value)
      (rest : List Field),
      walkFields P env pfx (.mk n y j e (.vPtr z .none) :: rest) =
        .mk n y j e (.vPtr z .none) :: walkFields P env pfx rest) ∧
    (∀ (pf : String → Option GoFloat) (current : Value) (fl : List Field)
      (seg r2 : String) (rs2 : List String) (path value fname : String)
      (i0 : Nat) (f0 : Field) (z0 u : Value),
      derefOnce current = .vStruct fl →
      findFieldByNameOrTag fl seg = some fname →
      fieldByName fl fname = some (i0, f0) → f0.exported = true →
      f0.val = .vPtr z0 (.some u) →
      svp pf current (seg :: r2 :: rs2) path value =
        match svp pf (.vPtr z0 (.some u)) (r2 :: rs2) path value with
        | .ok p2 ds => .ok (writeBack current fl i0 (f0.withVal p2)) ds
        | .panicked ds m => .panicked ds m) ∧
    (∀ (pf : String → Option GoFloat) (current : Value) (fl : List Field)
      (seg r2 : String) (rs2 : List String) (path value fname : String)
      (i0 : Nat) (f0 : Field) (z0 : Value),
      derefOnce current = .vStruct fl →
      findFieldByNameOrTag fl seg = some fname →
      fieldByName fl fname = some (i0, f0) → f0.exported = true →
      f0.val = .vPtr z0 .none →
      svp pf current (seg :: r2 :: rs2) path value =
        match svp pf (.vPtr z0 (.some z0)) (r2 :: rs2) path value with
        | .ok p2 ds => .ok (writeBack current fl i0 (f0.withVal p2)) ds
        | .panicked ds m => .panicked ds m) ∧
    (∀ (cfg : Value) (parse : FlagSet → Except String Parsed)
      (readFile : String → Except String String)
      (unmarshal : String → Value → Except String Value) (env : Env)
      (pf : String → Option GoFloat) (v : Value) (ds : List Diag),
      (∀ (doc : String) (vIn vOut : Value), unmarshal doc vIn = .ok vOut →
        ∀ (π : List Nat) (z u : Value),
          getVal vIn π = some (.vPtr z (.some u)) →
          ∃ u2, getVal vOut π = some (.vPtr z (.some u2))) →
      NewModel cfg parse readFile unmarshal env pf = .ok v ds →
      ∀ (π : List Nat) (z u : Value),
        getVal cfg π = some (.vPtr z (.some u)) →
        ∃ u2, getVal v π = some (.vPtr z (.some u2))) := by
  refine ⟨regFields_id, ?_, ?_, ?_, ?_⟩
  · intro P env pfx n y j e z rest
    cases e <;> simp [walkFields]
  · intro pf current fl seg r2 rs2 path value fname i0 f0 z0 u hd hfind hby
      he hv
    exact svp_nav pf current fl seg r2 rs2 path value fname i0 f0 z0
      (.some u) hd hfind hby he hv
  · intro pf current fl seg r2 rs2 path value fname i0 f0 z0 hd hfind hby
      he hv
    exact svp_nav pf current fl seg r2 rs2 path value fname i0 f0 z0
      .none hd hfind hby he hv
  · exact fun cfg parse readFile unmarshal env pf v ds hum h =>
      New_ptr cfg parse readFile unmarshal env pf v ds hum h

theorem pointer_allocated_once_witness :
    (regFields "x" flC8 []).1 = flC8 ∧
    (svp (fun _ => none) cfgC8 ["a", "b"] "a.b" "9" =
      match svp (fun _ => none) (.vPtr zC8 (.some uC8)) ["b"] "a.b" "9" with
      | .ok p2 ds =>
        .ok (writeBack cfgC8 flC8 0
          ((Field.mk "A" "a" "" true (.vPtr zC8 (.some uC8))).withVal p2)) ds
      | .panicked ds m => .panicked ds m) ∧
    (∃ u2, getVal (.vStruct (regFields "" flC8 []).1) [0] =
      some (.vPtr zC8 (.some u2))) := by
  refine ⟨?_, ?_, ?_⟩
  · exact pointer_allocated_once.1 "x" flC8 [] (by simp [flC8, uC8, noNilFields])
  · exact pointer_allocated_once.2.2.1 (fun _ => none) cfgC8 flC8 "a" "b" []
      "a.b" "9" "A" 0 (Field.mk "A" "a" "" true (.vPtr zC8 (.some uC8)))
      zC8 uC8 rfl rfl rfl rfl rfl
  · exact pointer_allocated_once.2.2.2.2 cfgC8 (fun _ => .ok parsedC8)
      (fun _ => .error "x") (fun _ v => .ok v) envEmpty (fun _ => none)
      (.vStruct (regFields "" flC8 []).1) []
      (fun doc vIn vOut h π z u hg => by cases h; exact ⟨u, hg⟩)
      (NewModel_no_flags flC8 (fun _ => .ok parsedC8) (fun _ => .error "x")
        (fun _ v => .ok v) envEmpty (fun _ => none) parsedC8 rfl rfl rfl
        (fun _ => rfl))
      [0] zC8 uC8 rfl

end GokitConfig
